import Mathlib

/-!
Verification of the ckpt-integrity crash-consistency core.

This file gives a shallow embedding of the write / fault / verify / rollback
engine of the repository and proves (or refutes) the frozen specification
claims against it.  File contents are modelled as lists of naturals
(`Bytes`); JSON serialization of the manifest / commit / sidecar records is
modelled by a concrete length-prefixed encoding with an explicit decoder
(deterministic serialize, parse of a strict prefix fails, mirroring
`json.loads` on truncated documents); the SHA-256 primitive is an opaque
parameter `hash : Bytes → Nat`, since the code only ever compares hash
values for equality.
-/

namespace Ckpt

/-- Raw file contents: a list of byte values. -/
abbrev Bytes := List Nat

/-- Executable stand-in for the hash primitive, used to evaluate the
parametric definitions at concrete inputs. -/
def hashModel (b : Bytes) : Nat :=
  b.foldl (fun a x => (a * 131 + x + 1) % 1000000007) 7

/-! ### Length-prefixed encoding (model of JSON serialize / parse) -/

/-- Decode one natural from the front of a byte stream. -/
def decNat : Bytes → Option (Nat × Bytes)
  | [] => none
  | x :: r => some (x, r)

/-- Encode one natural. -/
def encNat (n : Nat) : Bytes := [n]

/-- Read exactly `n` values from the front of a byte stream. -/
def readN : Nat → Bytes → Option (List Nat × Bytes)
  | 0, b => some ([], b)
  | _ + 1, [] => none
  | n + 1, x :: b =>
    match readN n b with
    | none => none
    | some (xs, r) => some (x :: xs, r)

/-- Encode a string as its length followed by its character codes. -/
def encStr (s : String) : Bytes := s.toList.length :: s.toList.map Char.toNat

/-- Decode a string. -/
def decStr (b : Bytes) : Option (String × Bytes) :=
  match decNat b with
  | none => none
  | some (n, r) =>
    match readN n r with
    | none => none
    | some (xs, r') => some (String.mk (xs.map Char.ofNat), r')

/-- Encode a list as its length followed by the element encodings. -/
def encListGen (f : α → Bytes) (xs : List α) : Bytes :=
  xs.length :: (xs.map f).flatten

/-- Decode exactly `n` elements. -/
def decListN (dec : Bytes → Option (α × Bytes)) : Nat → Bytes → Option (List α × Bytes)
  | 0, b => some ([], b)
  | n + 1, b =>
    match dec b with
    | none => none
    | some (a, r) =>
      match decListN dec n r with
      | none => none
      | some (as, r') => some (a :: as, r')

/-- Decode a length-prefixed list. -/
def decListGen (dec : Bytes → Option (α × Bytes)) (b : Bytes) : Option (List α × Bytes) :=
  match decNat b with
  | none => none
  | some (n, r) => decListN dec n r

/-- A decoder only inspects the front of the stream: success on `b` is
preserved when extra bytes are appended, with the extra bytes left over. -/
def DecMono (dec : Bytes → Option (α × Bytes)) : Prop :=
  ∀ b t a r, dec b = some (a, r) → dec (b ++ t) = some (a, r ++ t)

/-- Parse a whole file: decode and require that all bytes are consumed
(`json.loads` rejects trailing data). -/
def parseWith (dec : Bytes → Option (α × Bytes)) (b : Bytes) : Option α :=
  match dec b with
  | some (a, []) => some a
  | _ => none

theorem decNat_mono : DecMono (α := Nat) decNat := by
  intro b t a r h
  cases b with
  | nil => simp [decNat] at h
  | cons x b =>
    simp [decNat] at h
    simp [decNat, h.1, h.2]

theorem readN_append (xs : List Nat) (t : Bytes) :
    readN xs.length (xs ++ t) = some (xs, t) := by
  induction xs with
  | nil => simp [readN]
  | cons x xs ih => simp [readN, ih]

theorem readN_mono (n : Nat) : DecMono (readN n) := by
  induction n with
  | zero => intro b t a r h; simp [readN] at h; simp [readN, h.1, h.2]
  | succ n ih =>
    intro b t a r h
    cases b with
    | nil => simp [readN] at h
    | cons x b =>
      rw [List.cons_append]
      simp only [readN] at h ⊢
      cases hr : readN n b with
      | none => rw [hr] at h; simp at h
      | some p =>
        rw [hr] at h
        simp at h
        rw [ih b t p.1 p.2 (by rw [hr])]
        simp [← h.1, ← h.2]

theorem decStr_enc (s : String) (t : Bytes) :
    decStr (encStr s ++ t) = some (s, t) := by
  simp only [encStr, decStr, decNat, List.cons_append]
  rw [show s.toList.map Char.toNat ++ t = s.toList.map Char.toNat ++ t from rfl]
  have h := readN_append (s.toList.map Char.toNat) t
  simp only [List.length_map] at h
  rw [h]
  simp [List.map_map, Function.comp_def, Char.ofNat_toNat]

theorem decStr_mono : DecMono (α := String) decStr := by
  intro b t a r h
  cases b with
  | nil => simp [decStr, decNat] at h
  | cons n b =>
    rw [List.cons_append]
    simp only [decStr, decNat] at h ⊢
    cases hr : readN n b with
    | none => rw [hr] at h; simp at h
    | some p =>
      rw [hr] at h
      simp at h
      rw [readN_mono n b t p.1 p.2 (by rw [hr])]
      simp [← h.1, ← h.2]

theorem decListN_enc (enc : α → Bytes) (dec : Bytes → Option (α × Bytes))
    (henc : ∀ a t, dec (enc a ++ t) = some (a, t)) (xs : List α) (t : Bytes) :
    decListN dec xs.length ((xs.map enc).flatten ++ t) = some (xs, t) := by
  induction xs with
  | nil => simp [decListN]
  | cons x xs ih =>
    simp only [List.map_cons, List.flatten_cons, List.length_cons, decListN, List.append_assoc]
    rw [henc x ((xs.map enc).flatten ++ t)]
    simp [ih]

theorem decListGen_enc (enc : α → Bytes) (dec : Bytes → Option (α × Bytes))
    (henc : ∀ a t, dec (enc a ++ t) = some (a, t)) (xs : List α) (t : Bytes) :
    decListGen dec (encListGen enc xs ++ t) = some (xs, t) := by
  simp only [encListGen, decListGen, decNat, List.cons_append]
  exact decListN_enc enc dec henc xs t

theorem decListN_mono (dec : Bytes → Option (α × Bytes)) (hdec : DecMono dec)
    (n : Nat) : DecMono (decListN dec n) := by
  induction n with
  | zero => intro b t a r h; simp [decListN] at h; simp [decListN, h.1, h.2]
  | succ n ih =>
    intro b t a r h
    simp only [decListN] at h ⊢
    cases hd : dec b with
    | none => rw [hd] at h; simp at h
    | some p =>
      obtain ⟨a1, r1⟩ := p
      rw [hd] at h
      rw [hdec b t a1 r1 hd]
      simp only [] at h ⊢
      cases hl : decListN dec n r1 with
      | none => rw [hl] at h; simp at h
      | some q =>
        obtain ⟨as, r2⟩ := q
        rw [hl] at h
        simp at h
        rw [ih r1 t as r2 hl]
        simp [← h.1, ← h.2]

theorem decListGen_mono (dec : Bytes → Option (α × Bytes)) (hdec : DecMono dec) :
    DecMono (decListGen dec) := by
  intro b t a r h
  simp only [decListGen] at h ⊢
  cases b with
  | nil => simp [decNat] at h
  | cons n b =>
    simp only [decNat] at h ⊢
    exact decListN_mono dec hdec n b t a r h

/-- Parsing a strict prefix of a file that parses completely fails. -/
theorem parseWith_take_eq_none (dec : Bytes → Option (α × Bytes))
    (hmono : DecMono dec) (B : Bytes) (a : α) (hB : dec B = some (a, []))
    (k : Nat) (hk : k < B.length) :
    parseWith dec (B.take k) = none := by
  unfold parseWith
  cases hd : dec (B.take k) with
  | none => rfl
  | some p =>
    obtain ⟨a', r'⟩ := p
    cases r' with
    | nil =>
      exfalso
      have h2 := hmono (B.take k) (B.drop k) a' [] hd
      rw [List.take_append_drop] at h2
      rw [hB] at h2
      simp at h2
      obtain ⟨-, h3⟩ := h2
      omega
    | cons y ys => rfl

/-! ### Group checkpoint data model (`src/src/aiwork/group_ckpt.py`,
`src/src/guard/group_guard.py`) -/

/-- One entry of `MANIFEST.json`: `{path, bytes, sha256}`. -/
structure PartEntry where
  path : String
  bytes : Nat
  sha256 : Nat
deriving DecidableEq

/-- `MANIFEST.json`: `{epoch, seed, parts}`. -/
structure Manifest where
  epoch : Nat
  seed : Nat
  parts : List PartEntry
deriving DecidableEq

/-- `COMMIT.json`: `{epoch, seed, manifest_sha256, ts}`. -/
structure Commit where
  epoch : Nat
  seed : Nat
  manifest_sha256 : Nat
  ts : Nat
deriving DecidableEq

def encPartEntry (p : PartEntry) : Bytes :=
  encStr p.path ++ (encNat p.bytes ++ encNat p.sha256)

def decPartEntry (b : Bytes) : Option (PartEntry × Bytes) :=
  match decStr b with
  | none => none
  | some (s, r) =>
    match decNat r with
    | none => none
    | some (n, r') =>
      match decNat r' with
      | none => none
      | some (h, r'') => some (⟨s, n, h⟩, r'')

/-- Model of `json.dumps` of a manifest (deterministic serialization). -/
def encManifest (m : Manifest) : Bytes :=
  encNat m.epoch ++ (encNat m.seed ++ encListGen encPartEntry m.parts)

def decManifest (b : Bytes) : Option (Manifest × Bytes) :=
  match decNat b with
  | none => none
  | some (e, r) =>
    match decNat r with
    | none => none
    | some (s, r') =>
      match decListGen decPartEntry r' with
      | none => none
      | some (ps, r'') => some (⟨e, s, ps⟩, r'')

/-- Model of `json.loads` for `MANIFEST.json`: either the whole byte string is
a serialized manifest or parsing fails. -/
def parseManifest : Bytes → Option Manifest := parseWith decManifest

/-- Model of `json.dumps` of a commit record. -/
def encCommit (c : Commit) : Bytes :=
  encNat c.epoch ++ (encNat c.seed ++ (encNat c.manifest_sha256 ++ encNat c.ts))

def decCommit (b : Bytes) : Option (Commit × Bytes) :=
  match decNat b with
  | none => none
  | some (e, r) =>
    match decNat r with
    | none => none
    | some (s, r') =>
      match decNat r' with
      | none => none
      | some (h, r'') =>
        match decNat r'' with
        | none => none
        | some (ts, r3) => some (⟨e, s, h, ts⟩, r3)

/-- Model of `json.loads` for `COMMIT.json`. -/
def parseCommit : Bytes → Option Commit := parseWith decCommit

theorem decPartEntry_enc (p : PartEntry) (t : Bytes) :
    decPartEntry (encPartEntry p ++ t) = some (p, t) := by
  simp only [encPartEntry, decPartEntry, List.append_assoc]
  rw [decStr_enc]
  simp [encNat, decNat]

theorem decManifest_enc (m : Manifest) (t : Bytes) :
    decManifest (encManifest m ++ t) = some (m, t) := by
  simp [encManifest, decManifest, encNat, decNat,
    decListGen_enc encPartEntry decPartEntry decPartEntry_enc]

theorem parseManifest_enc (m : Manifest) : parseManifest (encManifest m) = some m := by
  have h := decManifest_enc m []
  rw [List.append_nil] at h
  simp [parseManifest, parseWith, h]

theorem decCommit_enc (c : Commit) (t : Bytes) :
    decCommit (encCommit c ++ t) = some (c, t) := by
  simp [encCommit, decCommit, encNat, decNat]

theorem parseCommit_enc (c : Commit) : parseCommit (encCommit c) = some c := by
  have h := decCommit_enc c []
  rw [List.append_nil] at h
  simp [parseCommit, parseWith, h]

theorem decPartEntry_mono : DecMono decPartEntry := by
  intro b t a r h
  simp only [decPartEntry] at h ⊢
  cases hs : decStr b with
  | none => rw [hs] at h; simp at h
  | some p =>
    obtain ⟨s, r1⟩ := p
    rw [hs] at h
    rw [decStr_mono b t s r1 hs]
    cases r1 with
    | nil => simp [decNat] at h
    | cons n r2 =>
      cases r2 with
      | nil => simp [decNat] at h
      | cons h2 r3 =>
        simp [decNat] at h ⊢
        simp [← h.1, ← h.2]

theorem decManifest_mono : DecMono decManifest := by
  intro b t a r h
  simp only [decManifest] at h ⊢
  cases b with
  | nil => simp [decNat] at h
  | cons e b =>
    simp only [decNat] at h ⊢
    cases b with
    | nil => simp [decNat] at h
    | cons s b =>
      simp only [decNat, List.cons_append] at h ⊢
      cases hl : decListGen decPartEntry b with
      | none => rw [hl] at h; simp at h
      | some q =>
        rw [hl] at h
        simp at h
        rw [decListGen_mono decPartEntry decPartEntry_mono b t q.1 q.2 (by rw [hl])]
        simp [← h.1, ← h.2]

/-! ### Group integrity scanner (`src/src/guard/group_guard.py`, `scan_dir`) -/

/-- On-disk state of one `epoch_*` directory: the part files, and the raw
bytes of `MANIFEST.json` / `COMMIT.json` when present. -/
structure EpochDir where
  parts : List (String × Bytes)
  manifest : Option Bytes
  commit : Option Bytes

/-- File lookup inside the directory (`(ep_dir / name).exists` / read). -/
def lookupFile (files : List (String × Bytes)) (name : String) : Option Bytes :=
  match files.find? (fun f => f.1 == name) with
  | none => none
  | some f => some f.2

/-- One output row of the group scan CSV. -/
structure GroupRow where
  epoch : Nat
  has_commit : Bool
  has_manifest : Bool
  parts_ok : Bool
  group_ok : Bool
  note : List String
deriving DecidableEq

/-- The part-checking loop of `scan_dir`: returns the failure count and the
notes, in loop order.  Size is compared first; the hash is only recomputed
when the size matches (mirroring the `elif`). -/
def checkParts (hash : Bytes → Nat) (files : List (String × Bytes)) :
    List PartEntry → Nat × List String
  | [] => (0, [])
  | pt :: rest =>
    let r := checkParts hash files rest
    match lookupFile files pt.path with
    | none => (r.1 + 1, ("missing:" ++ pt.path) :: r.2)
    | some b =>
      if b.length ≠ pt.bytes then (r.1 + 1, ("size_mismatch:" ++ pt.path) :: r.2)
      else if hash b ≠ pt.sha256 then (r.1 + 1, ("sha_mismatch:" ++ pt.path) :: r.2)
      else r

/-- Reading `MANIFEST.json` in `scan_dir`: the hash of the on-disk bytes is
computed before parsing, and a parse failure becomes a
`manifest_error:<kind>` note with `manifest = None`. -/
def manifestRead (hash : Bytes → Nat) : Option Bytes → Nat × Option Manifest × List String
  | none => (0, none, [])
  | some b =>
    match parseManifest b with
    | some m => (hash b, some m, [])
    | none => (hash b, none, ["manifest_error:JSONDecodeError"])

/-- The body of `scan_dir` for one epoch directory, producing its CSV row. -/
def scan_dir_row (hash : Bytes → Nat) (epoch : Nat) (d : EpochDir) : GroupRow :=
  let mi := manifestRead hash d.manifest
  match d.commit with
  | none =>
    { epoch := epoch, has_commit := false, has_manifest := d.manifest.isSome,
      parts_ok := false, group_ok := false, note := mi.2.2 ++ ["no_commit"] }
  | some cb =>
    match parseCommit cb with
    | none =>
      { epoch := epoch, has_commit := true, has_manifest := d.manifest.isSome,
        parts_ok := false, group_ok := false,
        note := mi.2.2 ++ ["commit_error:JSONDecodeError"] }
    | some c =>
      match mi.2.1 with
      | none =>
        { epoch := epoch, has_commit := true, has_manifest := d.manifest.isSome,
          parts_ok := false, group_ok := false, note := mi.2.2 }
      | some m =>
        if c.manifest_sha256 ≠ mi.1 then
          { epoch := epoch, has_commit := true, has_manifest := d.manifest.isSome,
            parts_ok := false, group_ok := false,
            note := mi.2.2 ++ ["commit_manifest_mismatch"] }
        else
          let r := checkParts hash d.parts m.parts
          { epoch := epoch, has_commit := true, has_manifest := d.manifest.isSome,
            parts_ok := r.1 == 0, group_ok := r.1 == 0, note := mi.2.2 ++ r.2 }

/-- The whole scan: one row per epoch directory. -/
def scan_dir (hash : Bytes → Nat) (dirs : List (Nat × EpochDir)) : List GroupRow :=
  dirs.map (fun d => scan_dir_row hash d.1 d.2)

/-- A manifest entry is satisfied on disk: the part exists with the declared
byte count and hash. -/
def PartGood (hash : Bytes → Nat) (files : List (String × Bytes)) (pt : PartEntry) : Prop :=
  ∃ b, lookupFile files pt.path = some b ∧ b.length = pt.bytes ∧ hash b = pt.sha256

theorem checkParts_eq_zero_iff (hash : Bytes → Nat) (files : List (String × Bytes))
    (l : List PartEntry) :
    (checkParts hash files l).1 = 0 ↔ ∀ pt ∈ l, PartGood hash files pt := by
  induction l with
  | nil => simp [checkParts]
  | cons pt rest ih =>
    simp only [checkParts, List.mem_cons]
    cases hl : lookupFile files pt.path with
    | none =>
      simp only []
      constructor
      · intro h; omega
      · intro h
        exfalso
        obtain ⟨b, hb, _⟩ := h pt (Or.inl rfl)
        rw [hl] at hb
        exact Option.noConfusion hb
    | some b =>
      by_cases hlen : b.length ≠ pt.bytes
      · simp only [if_pos hlen]
        constructor
        · intro h; omega
        · intro h
          exfalso
          obtain ⟨b', hb', hlen', _⟩ := h pt (Or.inl rfl)
          rw [hl] at hb'
          cases hb'
          exact hlen hlen'
      · simp only [if_neg hlen]
        push_neg at hlen
        by_cases hsha : hash b ≠ pt.sha256
        · simp only [if_pos hsha]
          constructor
          · intro h; omega
          · intro h
            exfalso
            obtain ⟨b', hb', _, hsha'⟩ := h pt (Or.inl rfl)
            rw [hl] at hb'
            cases hb'
            exact hsha hsha'
        · simp only [if_neg hsha]
          push_neg at hsha
          rw [ih]
          constructor
          · intro h pt' hpt'
            rcases hpt' with h1 | h2
            · subst h1; exact ⟨b, hl, hlen, hsha⟩
            · exact h pt' h2
          · intro h pt' hpt'
            exact h pt' (Or.inr hpt')

/-- C1.  Group validity rule: `group_ok` is true iff `COMMIT.json` exists and
parses, its `manifest_sha256` field equals the hash of the on-disk
`MANIFEST.json` bytes (which must exist and parse), and every part listed in
the manifest exists on disk with matching byte count and hash.  In
particular one bad or missing part makes `group_ok` false even when all
other parts are individually correct. -/
theorem c1_group_validity (hash : Bytes → Nat) (epoch : Nat) (d : EpochDir) :
    (scan_dir_row hash epoch d).group_ok = true ↔
      ∃ cb c mb m,
        d.commit = some cb ∧ parseCommit cb = some c ∧
        d.manifest = some mb ∧ parseManifest mb = some m ∧
        c.manifest_sha256 = hash mb ∧
        ∀ pt ∈ m.parts, ∃ b, lookupFile d.parts pt.path = some b ∧
          b.length = pt.bytes ∧ hash b = pt.sha256 := by
  cases hc : d.commit with
  | none =>
    simp [scan_dir_row, hc]
  | some cb =>
    cases hpc : parseCommit cb with
    | none =>
      simp [scan_dir_row, hc, hpc]
    | some c =>
      cases hm : d.manifest with
      | none =>
        simp [scan_dir_row, hc, hpc, hm, manifestRead]
      | some mb =>
        cases hpm : parseManifest mb with
        | none =>
          simp [scan_dir_row, hc, hpc, hm, hpm, manifestRead]
        | some m =>
          by_cases hsha : c.manifest_sha256 = hash mb
          · have hcond : ¬(c.manifest_sha256 ≠ hash mb) := by simp [hsha]
            simp only [scan_dir_row, hc, hpc, hm, hpm, manifestRead, if_neg hcond]
            constructor
            · intro h
              refine ⟨cb, c, mb, m, rfl, hpc, rfl, hpm, hsha, ?_⟩
              exact (checkParts_eq_zero_iff hash d.parts m.parts).mp (by simpa using h)
            · rintro ⟨cb', c', mb', m', hcb', hc', hmb', hm', -, hparts⟩
              cases hcb'
              rw [hpc] at hc'
              cases hc'
              cases hmb'
              rw [hpm] at hm'
              cases hm'
              simpa using (checkParts_eq_zero_iff hash d.parts m.parts).mpr hparts
          · have hcond : c.manifest_sha256 ≠ hash mb := hsha
            simp only [scan_dir_row, hc, hpc, hm, hpm, manifestRead, if_pos hcond]
            constructor
            · intro h
              exact absurd h (by simp)
            · rintro ⟨cb', c', mb', m', hcb', hc', hmb', hm', hsha', -⟩
              cases hcb'
              rw [hpc] at hc'
              cases hc'
              cases hmb'
              exact absurd hsha' hsha

/-! ### Write modes, fault modes, crash points -/

/-- Write strategy.  `direct` is the source's "unsafe" mode: direct writes,
no fsync, optionally torn (half-written) content. -/
inductive WriteMode
  | atomic
  | direct
deriving DecidableEq

/-- Fault-injection modes (`none`, `bitflip`, `truncate`, `zerorange`). -/
inductive Fault
  | noFault
  | bitflip
  | truncate
  | zerorange
deriving DecidableEq

/-- Crash points of the group writer (`--crash-at`): `none`, `after_model`,
`before_manifest`, `manifest_partial` (here `manifestHalf`), `before_commit`. -/
inductive CrashAt
  | noCrash
  | afterModel
  | beforeManifest
  | manifestHalf
  | beforeCommit
deriving DecidableEq

/-- Model of `random.randrange(n)`: the random source is an explicit stream
of naturals, consumed one value per draw. -/
def randrange (s : List Nat) (n : Nat) : Nat × List Nat :=
  (s.headD 0 % n, s.tail)

/-- Zero a contiguous run `[start, start+len)` of a byte string. -/
def zeroRange (b : Bytes) (start len : Nat) : Bytes :=
  b.take start ++ List.replicate (min len (b.length - start)) 0 ++ b.drop (start + len)

/-- The bitflip loop of the single-writer injector: `flips` iterations, each
drawing a byte index and a bit position. -/
def bitflipN : Nat → List Nat → Bytes → Bytes × List Nat
  | 0, s, b => (b, s)
  | k + 1, s, b =>
    let (i, s1) := randrange s b.length
    let (bit, s2) := randrange s1 8
    bitflipN k s2 (b.set i (Nat.xor (b.getD i 0) (2 ^ bit)))

/-- Fuel-based binary logarithm (kernel-reducible, unlike `Nat.log2`). -/
def log2fuel : Nat → Nat → Nat
  | 0, _ => 0
  | fuel + 1, n => if n ≤ 1 then 0 else log2fuel fuel (n / 2) + 1

/-- Exact model of Python `int(n * 0.7)` on IEEE-754 doubles: `0.7` is the
double `6305039478318694 / 2 ^ 53`; the product is rounded to 53 significant
bits (round to nearest, ties to even) and then truncated toward zero.
Validated against CPython for all `n` up to 3,000,000; the model ignores
float overflow, which is unreachable for physical byte strings. -/
def pyTrunc7 (n : Nat) : Nat :=
  let p := n * 6305039478318694
  if p = 0 then 0
  else
    let k := log2fuel p p + 1
    if k ≤ 53 then p / 2 ^ 53
    else
      let s := k - 53
      let q := p / 2 ^ s
      let r := p % 2 ^ s
      let half := 2 ^ (s - 1)
      let q' := if half < r ∨ (r = half ∧ q % 2 = 1) then q + 1 else q
      q' * 2 ^ s / 2 ^ 53

/-- Fault injector of the single-checkpoint writers
(`src/src/aiwork/ckpt_writer.py` and the character-identical
`src/src/aiwork/torch_ckpt_writer.py`): `truncate` keeps `int(n * 0.7)`
bytes; every mode is the identity on empty input. -/
def inject_fault (s : List Nat) (mode : Fault) (raw : Bytes) : Bytes × List Nat :=
  match mode with
  | .noFault => (raw, s)
  | .bitflip =>
    if raw.length = 0 then (raw, s)
    else bitflipN (max 1 (raw.length / 200000)) s raw
  | .truncate =>
    if raw.length = 0 then (raw, s)
    else (raw.take (pyTrunc7 raw.length), s)
  | .zerorange =>
    if raw.length = 0 then (raw, s)
    else
      let (start, s1) := randrange s raw.length
      (zeroRange raw start (min (raw.length - start) (max 1 (raw.length / 100))), s1)

/-- Fault injector of the group writer (`src/src/aiwork/group_ckpt.py`):
`truncate` keeps `max 1 (n / 2)` bytes — the first half, not 70% — and
`bitflip` flips exactly one bit. -/
def group_inject_fault (s : List Nat) (mode : Fault) (b : Bytes) : Bytes × List Nat :=
  match mode with
  | .noFault => (b, s)
  | .bitflip =>
    if b.length = 0 then (b, s)
    else
      let (i, s1) := randrange s b.length
      let (bit, s2) := randrange s1 8
      (b.set i (Nat.xor (b.getD i 0) (2 ^ bit)), s2)
  | .truncate =>
    if b.length = 0 then (b, s)
    else (b.take (max 1 (b.length / 2)), s)
  | .zerorange =>
    if b.length = 0 then (b, s)
    else
      let (start, s1) := randrange s b.length
      (zeroRange b start (min (b.length - start) (max 1 (b.length / 100))), s1)

/-! ### Group checkpoint writer (`src/src/aiwork/group_ckpt.py`, `write_group`) -/

/-- The source's `unsafe_write_bytes`: when `torn` and the data is longer
than one byte, only the first `max 1 (len / 2)` bytes reach the disk. -/
def group_unsafe_write (data : Bytes) (torn : Bool) : Bytes :=
  if torn ∧ 1 < data.length then data.take (max 1 (data.length / 2)) else data

/-- The part-writing loop of `write_group`: fault-inject, persist (torn for
`model.bin` when the crash point is `after_model`), and record
`{name, size, hash}` of the full post-fault data into the manifest list. -/
def writePartsLoop (hash : Bytes → Nat) (mode : WriteMode) (fault : Fault)
    (crashAt : CrashAt) :
    List (String × Bytes) → List Nat → List (String × Bytes) × List PartEntry × List Nat
  | [], s => ([], [], s)
  | (name, data0) :: rest, s =>
    let (data, s1) := group_inject_fault s fault data0
    let torn := name == "model.bin" && crashAt == CrashAt.afterModel
    let onDisk :=
      match mode with
      | .atomic => data
      | .direct => group_unsafe_write data torn
    let (fs, es, s2) := writePartsLoop hash mode fault crashAt rest s1
    ((name, onDisk) :: fs, ⟨name, data.length, hash data⟩ :: es, s2)

/-- The two-phase group write protocol, returning the on-disk state of the
epoch directory at process exit (normal completion or simulated crash).
Atomic writes are modelled as full content; the directory-fsync toggle does
not change on-disk bytes and is omitted. -/
def write_group (hash : Bytes → Nat) (epoch seed ts : Nat)
    (parts : List (String × Bytes)) (mode : WriteMode) (fault : Fault)
    (crashAt : CrashAt) (s : List Nat) : EpochDir :=
  let w := writePartsLoop hash mode fault crashAt parts s
  let files := w.1
  let entries := w.2.1
  if mode = .direct ∧ crashAt = .beforeManifest then
    ⟨files, none, none⟩
  else
    let manBytes := encManifest ⟨epoch, seed, entries⟩
    let manDisk :=
      match mode with
      | .atomic => manBytes
      | .direct => group_unsafe_write manBytes (crashAt == CrashAt.manifestHalf)
    if mode = .direct ∧ (crashAt = .beforeCommit ∨ crashAt = .manifestHalf) then
      ⟨files, some manDisk, none⟩
    else
      ⟨files, some manDisk, some (encCommit ⟨epoch, seed, hash manBytes, ts⟩)⟩

/-! ### Crash-point mapping (claim C4) -/

theorem encManifest_length_ge (m : Manifest) : 3 ≤ (encManifest m).length := by
  simp [encManifest, encNat, encListGen]

theorem string_beq_mo : (("model.bin" : String) == "optim.bin") = false := by decide
theorem string_beq_mr : (("model.bin" : String) == "rng.json") = false := by decide
theorem string_beq_om : (("optim.bin" : String) == "model.bin") = false := by decide
theorem string_beq_or : (("optim.bin" : String) == "rng.json") = false := by decide
theorem string_beq_rm : (("rng.json" : String) == "model.bin") = false := by decide
theorem string_beq_ro : (("rng.json" : String) == "optim.bin") = false := by decide

/-- The three standard parts, all matching their manifest entries. -/
theorem checkParts_good3 (hash : Bytes → Nat) (bm bo br : Bytes) :
    checkParts hash [("model.bin", bm), ("optim.bin", bo), ("rng.json", br)]
      [⟨"model.bin", bm.length, hash bm⟩, ⟨"optim.bin", bo.length, hash bo⟩,
       ⟨"rng.json", br.length, hash br⟩] = (0, []) := by
  simp [checkParts, lookupFile, List.find?, string_beq_mo, string_beq_mr,
    string_beq_om, string_beq_or, string_beq_rm, string_beq_ro]

/-- The three standard parts with a torn `model.bin`: exactly one failure,
reported as a size mismatch. -/
theorem checkParts_tornModel (hash : Bytes → Nat) (bm bo br : Bytes) (h : 1 < bm.length) :
    checkParts hash
      [("model.bin", bm.take (max 1 (bm.length / 2))), ("optim.bin", bo), ("rng.json", br)]
      [⟨"model.bin", bm.length, hash bm⟩, ⟨"optim.bin", bo.length, hash bo⟩,
       ⟨"rng.json", br.length, hash br⟩] = (1, ["size_mismatch:model.bin"]) := by
  have hlen : (bm.take (max 1 (bm.length / 2))).length = max 1 (bm.length / 2) := by
    rw [List.length_take]
    omega
  have hcond : (bm.take (max 1 (bm.length / 2))).length ≠ bm.length := by
    rw [hlen]
    omega
  simp [checkParts, lookupFile, List.find?, string_beq_mo, string_beq_mr,
    string_beq_om, string_beq_or, string_beq_rm, string_beq_ro, hcond]
  intro h2
  exact absurd (h2 h) (by omega)

set_option maxRecDepth 8000 in
/-- C4 (counterexample).  Writing in unsafe mode with crash point
`after_model` does not leave "later parts or the manifest missing": all
later parts, the manifest and the commit are present; the actual defect is
a half-written `model.bin`, which the scan reports as a size mismatch. -/
theorem c4_crash_mapping_counterexample :
    (write_group hashModel 7 0 0
        [("model.bin", [0, 1, 2, 3]), ("optim.bin", [4, 5]), ("rng.json", [6])]
        .direct .noFault .afterModel []).manifest.isSome = true ∧
    (write_group hashModel 7 0 0
        [("model.bin", [0, 1, 2, 3]), ("optim.bin", [4, 5]), ("rng.json", [6])]
        .direct .noFault .afterModel []).commit.isSome = true ∧
    lookupFile (write_group hashModel 7 0 0
        [("model.bin", [0, 1, 2, 3]), ("optim.bin", [4, 5]), ("rng.json", [6])]
        .direct .noFault .afterModel []).parts "optim.bin" = some [4, 5] ∧
    lookupFile (write_group hashModel 7 0 0
        [("model.bin", [0, 1, 2, 3]), ("optim.bin", [4, 5]), ("rng.json", [6])]
        .direct .noFault .afterModel []).parts "rng.json" = some [6] ∧
    lookupFile (write_group hashModel 7 0 0
        [("model.bin", [0, 1, 2, 3]), ("optim.bin", [4, 5]), ("rng.json", [6])]
        .direct .noFault .afterModel []).parts "model.bin" = some [0, 1] ∧
    (scan_dir_row hashModel 7 (write_group hashModel 7 0 0
        [("model.bin", [0, 1, 2, 3]), ("optim.bin", [4, 5]), ("rng.json", [6])]
        .direct .noFault .afterModel [])).note = ["size_mismatch:model.bin"] ∧
    (scan_dir_row hashModel 7 (write_group hashModel 7 0 0
        [("model.bin", [0, 1, 2, 3]), ("optim.bin", [4, 5]), ("rng.json", [6])]
        .direct .noFault .afterModel [])).group_ok = false := by
  decide

/-- The group writer's fixed part layout (`gen_parts`): `model.bin`,
`optim.bin`, `rng.json`, with arbitrary contents. -/
def threeParts (bm bo br : Bytes) : List (String × Bytes) :=
  [("model.bin", bm), ("optim.bin", bo), ("rng.json", br)]

/-- The manifest entries recorded for the three standard parts. -/
def threeEntries (hash : Bytes → Nat) (bm bo br : Bytes) : List PartEntry :=
  [⟨"model.bin", bm.length, hash bm⟩, ⟨"optim.bin", bo.length, hash bo⟩,
   ⟨"rng.json", br.length, hash br⟩]

theorem write_group_afterModel_eq (hash : Bytes → Nat) (epoch seed ts : Nat)
    (bm bo br : Bytes) (s : List Nat) (hbm : 1 < bm.length) :
    write_group hash epoch seed ts (threeParts bm bo br) .direct .noFault .afterModel s =
      ⟨[("model.bin", bm.take (max 1 (bm.length / 2))), ("optim.bin", bo), ("rng.json", br)],
       some (encManifest ⟨epoch, seed, threeEntries hash bm bo br⟩),
       some (encCommit ⟨epoch, seed,
         hash (encManifest ⟨epoch, seed, threeEntries hash bm bo br⟩), ts⟩)⟩ := by
  simp [write_group, writePartsLoop, group_inject_fault, group_unsafe_write,
    threeParts, threeEntries, hbm, string_beq_om, string_beq_rm]

theorem write_group_beforeManifest_eq (hash : Bytes → Nat) (epoch seed ts : Nat)
    (bm bo br : Bytes) (s : List Nat) :
    write_group hash epoch seed ts (threeParts bm bo br) .direct .noFault .beforeManifest s =
      ⟨threeParts bm bo br, none, none⟩ := by
  simp [write_group, writePartsLoop, group_inject_fault, group_unsafe_write,
    threeParts, string_beq_om, string_beq_rm]

theorem write_group_manifestHalf_eq (hash : Bytes → Nat) (epoch seed ts : Nat)
    (bm bo br : Bytes) (s : List Nat) :
    write_group hash epoch seed ts (threeParts bm bo br) .direct .noFault .manifestHalf s =
      ⟨threeParts bm bo br,
       some ((encManifest ⟨epoch, seed, threeEntries hash bm bo br⟩).take
         (max 1 ((encManifest ⟨epoch, seed, threeEntries hash bm bo br⟩).length / 2))),
       none⟩ := by
  have h3 := encManifest_length_ge ⟨epoch, seed, threeEntries hash bm bo br⟩
  simp [write_group, writePartsLoop, group_inject_fault, group_unsafe_write,
    threeParts, threeEntries, string_beq_om, string_beq_rm]
  omega

theorem write_group_beforeCommit_eq (hash : Bytes → Nat) (epoch seed ts : Nat)
    (bm bo br : Bytes) (s : List Nat) :
    write_group hash epoch seed ts (threeParts bm bo br) .direct .noFault .beforeCommit s =
      ⟨threeParts bm bo br,
       some (encManifest ⟨epoch, seed, threeEntries hash bm bo br⟩), none⟩ := by
  simp [write_group, writePartsLoop, group_inject_fault, group_unsafe_write,
    threeParts, threeEntries, string_beq_om, string_beq_rm]

theorem write_group_complete_eq (hash : Bytes → Nat) (epoch seed ts : Nat)
    (bm bo br : Bytes) (s : List Nat) (mode : WriteMode) (crashAt : CrashAt)
    (h : mode = .atomic ∨ crashAt = .noCrash) :
    write_group hash epoch seed ts (threeParts bm bo br) mode .noFault crashAt s =
      ⟨threeParts bm bo br,
       some (encManifest ⟨epoch, seed, threeEntries hash bm bo br⟩),
       some (encCommit ⟨epoch, seed,
         hash (encManifest ⟨epoch, seed, threeEntries hash bm bo br⟩), ts⟩)⟩ := by
  rcases h with h | h
  · subst h
    simp [write_group, writePartsLoop, group_inject_fault, threeParts, threeEntries]
  · subst h
    cases mode with
    | atomic =>
      simp [write_group, writePartsLoop, group_inject_fault, threeParts, threeEntries]
    | direct =>
      simp [write_group, writePartsLoop, group_inject_fault, group_unsafe_write,
        threeParts, threeEntries, string_beq_om, string_beq_rm]

/-- Scanning a directory holding a serialized manifest and a commit whose
hash field matches reduces to the part check. -/
theorem scan_dir_row_complete (hash : Bytes → Nat) (epoch : Nat)
    (files : List (String × Bytes)) (man : Manifest) (ce cs cts : Nat) :
    scan_dir_row hash epoch
      ⟨files, some (encManifest man), some (encCommit ⟨ce, cs, hash (encManifest man), cts⟩)⟩ =
      ⟨epoch, true, true, (checkParts hash files man.parts).1 == 0,
       (checkParts hash files man.parts).1 == 0, (checkParts hash files man.parts).2⟩ := by
  simp [scan_dir_row, manifestRead, parseManifest_enc, parseCommit_enc]

/-- C4 (amended).  Crash-point mapping as the code implements it, for the
writer's three-part layout: `after_model` leaves all later parts, the
manifest and the commit present but `model.bin` half-written (scan: size
mismatch, group invalid); `before_manifest` leaves manifest and commit
absent (scan: `no_commit`); `manifest_partial` leaves the manifest present
but truncated and unparseable and the commit absent (scan: manifest error
plus `no_commit`); `before_commit` leaves the manifest valid and the commit
absent (scan: `no_commit`); and a run in which the protocol completes —
atomic mode with any crash point, or unsafe mode with no crash point —
scans as valid. -/
theorem c4_crash_mapping_amended (hash : Bytes → Nat) (epoch seed ts : Nat)
    (bm bo br : Bytes) (s : List Nat) (hbm : 1 < bm.length) :
    ((write_group hash epoch seed ts (threeParts bm bo br)
        .direct .noFault .afterModel s).manifest.isSome = true ∧
     (write_group hash epoch seed ts (threeParts bm bo br)
        .direct .noFault .afterModel s).commit.isSome = true ∧
     lookupFile (write_group hash epoch seed ts (threeParts bm bo br)
        .direct .noFault .afterModel s).parts "model.bin" =
          some (bm.take (max 1 (bm.length / 2))) ∧
     lookupFile (write_group hash epoch seed ts (threeParts bm bo br)
        .direct .noFault .afterModel s).parts "optim.bin" = some bo ∧
     lookupFile (write_group hash epoch seed ts (threeParts bm bo br)
        .direct .noFault .afterModel s).parts "rng.json" = some br ∧
     (scan_dir_row hash epoch (write_group hash epoch seed ts (threeParts bm bo br)
        .direct .noFault .afterModel s)).group_ok = false ∧
     (scan_dir_row hash epoch (write_group hash epoch seed ts (threeParts bm bo br)
        .direct .noFault .afterModel s)).note = ["size_mismatch:model.bin"]) ∧
    ((write_group hash epoch seed ts (threeParts bm bo br)
        .direct .noFault .beforeManifest s).manifest = none ∧
     (write_group hash epoch seed ts (threeParts bm bo br)
        .direct .noFault .beforeManifest s).commit = none ∧
     (scan_dir_row hash epoch (write_group hash epoch seed ts (threeParts bm bo br)
        .direct .noFault .beforeManifest s)).group_ok = false ∧
     (scan_dir_row hash epoch (write_group hash epoch seed ts (threeParts bm bo br)
        .direct .noFault .beforeManifest s)).note = ["no_commit"]) ∧
    ((write_group hash epoch seed ts (threeParts bm bo br)
        .direct .noFault .manifestHalf s).commit = none ∧
     (write_group hash epoch seed ts (threeParts bm bo br)
        .direct .noFault .manifestHalf s).manifest =
       some ((encManifest ⟨epoch, seed, threeEntries hash bm bo br⟩).take
         (max 1 ((encManifest ⟨epoch, seed, threeEntries hash bm bo br⟩).length / 2))) ∧
     parseManifest ((encManifest ⟨epoch, seed, threeEntries hash bm bo br⟩).take
         (max 1 ((encManifest ⟨epoch, seed, threeEntries hash bm bo br⟩).length / 2))) = none ∧
     (scan_dir_row hash epoch (write_group hash epoch seed ts (threeParts bm bo br)
        .direct .noFault .manifestHalf s)).group_ok = false ∧
     (scan_dir_row hash epoch (write_group hash epoch seed ts (threeParts bm bo br)
        .direct .noFault .manifestHalf s)).note =
       ["manifest_error:JSONDecodeError", "no_commit"]) ∧
    ((write_group hash epoch seed ts (threeParts bm bo br)
        .direct .noFault .beforeCommit s).manifest =
       some (encManifest ⟨epoch, seed, threeEntries hash bm bo br⟩) ∧
     parseManifest (encManifest ⟨epoch, seed, threeEntries hash bm bo br⟩) =
       some ⟨epoch, seed, threeEntries hash bm bo br⟩ ∧
     (write_group hash epoch seed ts (threeParts bm bo br)
        .direct .noFault .beforeCommit s).commit = none ∧
     (scan_dir_row hash epoch (write_group hash epoch seed ts (threeParts bm bo br)
        .direct .noFault .beforeCommit s)).group_ok = false ∧
     (scan_dir_row hash epoch (write_group hash epoch seed ts (threeParts bm bo br)
        .direct .noFault .beforeCommit s)).note = ["no_commit"]) ∧
    (∀ (mode : WriteMode) (crashAt : CrashAt), mode = .atomic ∨ crashAt = .noCrash →
     (scan_dir_row hash epoch (write_group hash epoch seed ts (threeParts bm bo br)
        mode .noFault crashAt s)).group_ok = true) := by
  have hA := write_group_afterModel_eq hash epoch seed ts bm bo br s hbm
  have hB := write_group_beforeManifest_eq hash epoch seed ts bm bo br s
  have hC := write_group_manifestHalf_eq hash epoch seed ts bm bo br s
  have hD := write_group_beforeCommit_eq hash epoch seed ts bm bo br s
  have hman3 := encManifest_length_ge ⟨epoch, seed, threeEntries hash bm bo br⟩
  have hdecm : decManifest (encManifest ⟨epoch, seed, threeEntries hash bm bo br⟩) =
      some (⟨epoch, seed, threeEntries hash bm bo br⟩, []) := by
    have h := decManifest_enc ⟨epoch, seed, threeEntries hash bm bo br⟩ []
    simpa using h
  have hhalf : parseManifest ((encManifest ⟨epoch, seed, threeEntries hash bm bo br⟩).take
      (max 1 ((encManifest ⟨epoch, seed, threeEntries hash bm bo br⟩).length / 2))) = none := by
    apply parseWith_take_eq_none decManifest decManifest_mono _ _ hdecm
    omega
  refine ⟨?_, ?_, ?_, ?_, ?_⟩
  · rw [hA]
    rw [scan_dir_row_complete]
    refine ⟨rfl, rfl, ?_, ?_, ?_, ?_, ?_⟩
    · simp [lookupFile, List.find?]
    · simp [lookupFile, List.find?, string_beq_om, string_beq_rm]
    · simp [lookupFile, List.find?, string_beq_om, string_beq_rm, string_beq_ro]
    · have hcp := checkParts_tornModel hash bm bo br hbm
      simp only [threeEntries]
      rw [hcp]
      rfl
    · have hcp := checkParts_tornModel hash bm bo br hbm
      simp only [threeEntries]
      rw [hcp]
  · rw [hB]
    refine ⟨rfl, rfl, ?_, ?_⟩
    · simp [scan_dir_row, manifestRead]
    · simp [scan_dir_row, manifestRead]
  · rw [hC]
    refine ⟨rfl, rfl, hhalf, ?_, ?_⟩
    · simp [scan_dir_row, manifestRead, hhalf]
    · simp [scan_dir_row, manifestRead, hhalf]
  · rw [hD]
    refine ⟨rfl, parseManifest_enc _, rfl, ?_, ?_⟩
    · simp [scan_dir_row, manifestRead, parseManifest_enc]
    · simp [scan_dir_row, manifestRead, parseManifest_enc]
  · intro mode crashAt h
    rw [write_group_complete_eq hash epoch seed ts bm bo br s mode crashAt h]
    rw [scan_dir_row_complete]
    have hcp := checkParts_good3 hash bm bo br
    simp only [threeParts, threeEntries]
    rw [hcp]
    rfl

/-- C4 (witness): the amended crash-point mapping evaluated at a concrete
four-byte `model.bin`. -/
theorem c4_crash_mapping_amended_witness :
    1 < ([0, 1, 2, 3] : Bytes).length ∧
    (scan_dir_row hashModel 7 (write_group hashModel 7 0 0
      (threeParts [0, 1, 2, 3] [4, 5] [6]) .atomic .noFault .noCrash [])).group_ok = true := by
  refine ⟨by decide, ?_⟩
  exact (c4_crash_mapping_amended hashModel 7 0 0 [0, 1, 2, 3] [4, 5] [6] []
    (by decide)).2.2.2.2 WriteMode.atomic CrashAt.noCrash (Or.inl rfl)

/-! ### Fault injector truncate mode (claim C7) -/

/-- The fuel-based logarithm brackets its argument between consecutive
powers of two. -/
theorem log2fuel_bounds (fuel n : Nat) (h1 : 1 ≤ n) (h2 : n ≤ fuel) :
    2 ^ log2fuel fuel n ≤ n ∧ n < 2 ^ (log2fuel fuel n + 1) := by
  induction fuel generalizing n with
  | zero => omega
  | succ fuel ih =>
    simp only [log2fuel]
    by_cases hn : n ≤ 1
    · rw [if_pos hn]
      constructor
      · simpa using h1
      · simpa using by omega
    · rw [if_neg hn]
      have hrec := ih (n / 2) (by omega) (by omega)
      obtain ⟨hlo, hhi⟩ := hrec
      constructor
      · rw [pow_succ]
        omega
      · rw [pow_succ] at hhi
        rw [pow_succ, pow_succ]
        omega

/-- Truncation strictly shortens nonempty input: `int(n * 0.7) < n`. -/
theorem pyTrunc7_lt (n : Nat) (h : 1 ≤ n) : pyTrunc7 n < n := by
  have hp0 : n * 6305039478318694 ≠ 0 := by positivity
  have hpb := log2fuel_bounds (n * 6305039478318694) (n * 6305039478318694)
    (by omega) (Nat.le_refl _)
  simp only [pyTrunc7, if_neg hp0]
  by_cases hk53 : log2fuel (n * 6305039478318694) (n * 6305039478318694) + 1 ≤ 53
  · rw [if_pos hk53]
    have hlt : n * 6305039478318694 < 2 ^ 53 := by
      calc n * 6305039478318694
          < 2 ^ (log2fuel (n * 6305039478318694) (n * 6305039478318694) + 1) := hpb.2
        _ ≤ 2 ^ 53 := Nat.pow_le_pow_right (by norm_num) hk53
    rw [Nat.div_eq_of_lt hlt]
    omega
  · rw [if_neg hk53]
    push_neg at hk53
    set p := n * 6305039478318694 with hp
    set s := log2fuel p p + 1 - 53 with hs
    have hs1 : 1 ≤ s := by omega
    have hlow : 2 ^ (s + 52) ≤ p := by
      have h2 : s + 52 = log2fuel p p := by omega
      rw [h2]
      exact hpb.1
    have hq' : (if 2 ^ (s - 1) < p % 2 ^ s ∨ (p % 2 ^ s = 2 ^ (s - 1) ∧ p / 2 ^ s % 2 = 1)
        then p / 2 ^ s + 1 else p / 2 ^ s) ≤ p / 2 ^ s + 1 := by
      split <;> omega
    have hmul : (if 2 ^ (s - 1) < p % 2 ^ s ∨ (p % 2 ^ s = 2 ^ (s - 1) ∧ p / 2 ^ s % 2 = 1)
        then p / 2 ^ s + 1 else p / 2 ^ s) * 2 ^ s ≤ p + 2 ^ s := by
      have hd : p / 2 ^ s * 2 ^ s ≤ p := Nat.div_mul_le_self p (2 ^ s)
      calc (if 2 ^ (s - 1) < p % 2 ^ s ∨ (p % 2 ^ s = 2 ^ (s - 1) ∧ p / 2 ^ s % 2 = 1)
            then p / 2 ^ s + 1 else p / 2 ^ s) * 2 ^ s
          ≤ (p / 2 ^ s + 1) * 2 ^ s := Nat.mul_le_mul_right _ hq'
        _ = p / 2 ^ s * 2 ^ s + 2 ^ s := by ring
        _ ≤ p + 2 ^ s := by omega
    have hbound : p + 2 ^ s < n * 2 ^ 53 := by
      have ha : 2 ^ s * 2 ^ 52 ≤ p := by
        rw [← pow_add]
        exact hlow
      have hcore : n * (6305039478318694 * (2 ^ 52 + 1)) < n * (2 ^ 105) := by
        have hlt : (6305039478318694 : Nat) * (2 ^ 52 + 1) < 2 ^ 105 := by norm_num
        exact mul_lt_mul_of_pos_left hlt (by omega)
      have hx : (p + 2 ^ s) * 2 ^ 52 < n * 2 ^ 53 * 2 ^ 52 := by
        calc (p + 2 ^ s) * 2 ^ 52 = p * 2 ^ 52 + 2 ^ s * 2 ^ 52 := by ring
          _ ≤ p * 2 ^ 52 + p := by omega
          _ = p * (2 ^ 52 + 1) := by ring
          _ = n * (6305039478318694 * (2 ^ 52 + 1)) := by rw [hp]; ring
          _ < n * 2 ^ 105 := hcore
          _ = n * 2 ^ 53 * 2 ^ 52 := by ring
      exact Nat.lt_of_mul_lt_mul_right hx
    have hfin : (if 2 ^ (s - 1) < p % 2 ^ s ∨ (p % 2 ^ s = 2 ^ (s - 1) ∧ p / 2 ^ s % 2 = 1)
        then p / 2 ^ s + 1 else p / 2 ^ s) * 2 ^ s < 2 ^ 53 * n := by omega
    exact Nat.div_lt_of_lt_mul hfin

/-- C7 (counterexample).  The group writer's injector in mode `truncate`
keeps the first half, not the first 70%: on a ten-byte input it returns
five bytes where the claim demands seven.  Moreover even the npz/torch
injector's `int(n * 0.7)` differs from `floor(0.7 * n)` through float
rounding: at `n = 90` it keeps 62 bytes, not 63. -/
theorem c7_truncate_fault_counterexample :
    (group_inject_fault [] Fault.truncate [0, 1, 2, 3, 4, 5, 6, 7, 8, 9]).1 =
      [0, 1, 2, 3, 4] ∧
    (group_inject_fault [] Fault.truncate [0, 1, 2, 3, 4, 5, 6, 7, 8, 9]).1 ≠
      ([0, 1, 2, 3, 4, 5, 6, 7, 8, 9] : Bytes).take 7 ∧
    ((inject_fault [] Fault.truncate (List.replicate 90 1)).1).length = 62 ∧
    7 * 90 / 10 = 63 := by
  decide

/-- C7 (amended).  On nonempty input the npz/torch injector's `truncate`
keeps the first `int(n * 0.7)` bytes (computed in IEEE-754 double
precision, hence occasionally one less than `floor(0.7 * n)`), which is
always strictly fewer than `n`; the group writer's injector keeps the first
`max 1 (n / 2)` bytes; and on empty input every mode of both injectors
returns the input unchanged. -/
theorem c7_truncate_fault_amended (s : List Nat) (raw : Bytes) (h : raw ≠ []) :
    (inject_fault s Fault.truncate raw).1 = raw.take (pyTrunc7 raw.length) ∧
    pyTrunc7 raw.length < raw.length ∧
    (group_inject_fault s Fault.truncate raw).1 = raw.take (max 1 (raw.length / 2)) ∧
    (∀ (mode : Fault) (t : List Nat),
      (inject_fault t mode ([] : Bytes)).1 = [] ∧
      (group_inject_fault t mode ([] : Bytes)).1 = []) := by
  have hn : raw.length ≠ 0 := by simpa using h
  refine ⟨?_, ?_, ?_, ?_⟩
  · simp [inject_fault, hn]
  · exact pyTrunc7_lt raw.length (by omega)
  · simp [group_inject_fault, hn]
  · intro mode t
    cases mode <;> simp [inject_fault, group_inject_fault, bitflipN, zeroRange]

/-- C7 (witness): the amended truncate behaviour at a three-byte input. -/
theorem c7_truncate_fault_amended_witness :
    ([5, 6, 7] : Bytes) ≠ [] ∧
    (inject_fault [] Fault.truncate [5, 6, 7]).1 =
      ([5, 6, 7] : Bytes).take (pyTrunc7 ([5, 6, 7] : Bytes).length) :=
  ⟨by decide, (c7_truncate_fault_amended [] [5, 6, 7] (by decide)).1⟩

/-! ### Rollback alias updates (`src/src/guard/rollback.py`,
`src/src/guard/group_rollback.py`) -/

/-- Symlink namespace: a mapping from link names to targets. -/
abbrev LinkFs := List (String × String)

def lookupLink (fs : LinkFs) (name : String) : Option String :=
  match fs.find? (fun l => l.1 == name) with
  | none => none
  | some l => some l.2

def removeLink (fs : LinkFs) (name : String) : LinkFs :=
  fs.filter (fun l => l.1 != name)

def setLink (fs : LinkFs) (name target : String) : LinkFs :=
  (name, target) :: removeLink fs name

/-- Primitive filesystem operations on symlinks: `os.symlink`, `unlink`,
and `os.replace` (atomic rename). -/
inductive LinkOp
  | symlink (target name : String)
  | unlink (name : String)
  | rename (src dst : String)
deriving DecidableEq

def applyLinkOp (fs : LinkFs) : LinkOp → LinkFs
  | .symlink t n => setLink fs n t
  | .unlink n => removeLink fs n
  | .rename s d =>
    match lookupLink fs s with
    | some t => setLink (removeLink fs s) d t
    | none => fs

def applyLinkOps (fs : LinkFs) (ops : List LinkOp) : LinkFs :=
  ops.foldl applyLinkOp fs

/-- Every intermediate state of an operation sequence, initial state
included. -/
def linkStates (fs : LinkFs) : List LinkOp → List LinkFs
  | [] => [fs]
  | op :: ops => fs :: linkStates (applyLinkOp fs op) ops

/-- Alias update of the single-file rollback (`rollback.py`, `main`):
unlink the existing alias, then create the new symlink — two separate
steps. -/
def rollback_link_ops (fs : LinkFs) (outLink target : String) : List LinkOp :=
  (if (lookupLink fs outLink).isSome then [LinkOp.unlink outLink] else []) ++
  [LinkOp.symlink target outLink]

/-- Alias update of the group rollback (`group_rollback.py`,
`atomic_update_symlink`), primary path: create the new link under a
temporary name, then atomically rename it over the alias.  (The `except`
fallback that unlinks first is unreachable here: `os.replace` is atomic on
POSIX and does not raise when the destination exists.) -/
def atomic_update_symlink_ops (tmp outLink target : String) : List LinkOp :=
  [LinkOp.symlink target tmp, LinkOp.rename tmp outLink]

theorem lookupLink_removeLink_other (fs : LinkFs) (n m : String) (h : m ≠ n) :
    lookupLink (removeLink fs n) m = lookupLink fs m := by
  induction fs with
  | nil => rfl
  | cons l fs ih =>
    by_cases hl : l.1 = n
    · have hrem : removeLink (l :: fs) n = removeLink fs n := by
        simp [removeLink, List.filter_cons, hl]
      have hlm : (l.1 == m) = false := by
        rw [hl]
        simp [beq_eq_false_iff_ne]
        exact fun he => h he.symm
      have hrhs : lookupLink (l :: fs) m = lookupLink fs m := by
        simp [lookupLink, List.find?_cons, hlm]
      rw [hrem, hrhs]
      exact ih
    · have hln : (l.1 != n) = true := by
        simp [bne_iff_ne]
        exact hl
      have hrem : removeLink (l :: fs) n = l :: removeLink fs n := by
        simp [removeLink, List.filter_cons, hln]
      rw [hrem]
      by_cases hm : l.1 = m
      · have hlm : (l.1 == m) = true := by simp [hm]
        simp [lookupLink, List.find?_cons, hlm]
      · have hlm : (l.1 == m) = false := by
          simp [beq_eq_false_iff_ne]
          exact hm
        simp only [lookupLink, List.find?_cons, hlm]
        exact ih

theorem lookupLink_setLink_self (fs : LinkFs) (n t : String) :
    lookupLink (setLink fs n t) n = some t := by
  simp [setLink, lookupLink, List.find?_cons]

theorem lookupLink_setLink_other (fs : LinkFs) (n t m : String) (h : m ≠ n) :
    lookupLink (setLink fs n t) m = lookupLink fs m := by
  have h2 : (((n, t) : String × String).1 == m) = false := by
    simp [beq_eq_false_iff_ne]
    exact fun he => h he.symm
  simp only [setLink, lookupLink, List.find?_cons, h2]
  have h3 := lookupLink_removeLink_other fs n m h
  simpa [lookupLink] using h3

/-- C3 (counterexample).  The single-file rollback (`rollback.py`) updates
the alias by unlink-then-relink, not by a temp-name rename: on a concrete
state with an existing alias, its update sequence is an unlink followed by
a symlink, and the intermediate state has no alias at all. -/
theorem c3_alias_atomicity_counterexample :
    rollback_link_ops [("latest", "epoch_0003")] "latest" "epoch_0004" =
      [LinkOp.unlink "latest", LinkOp.symlink "epoch_0004" "latest"] ∧
    linkStates [("latest", "epoch_0003")]
        (rollback_link_ops [("latest", "epoch_0003")] "latest" "epoch_0004") =
      [[("latest", "epoch_0003")], [], [("latest", "epoch_0004")]] ∧
    lookupLink ([] : LinkFs) "latest" = none := by
  decide

/-- C3 (amended).  The group rollback's `atomic_update_symlink` does update
the alias via a temporary link plus atomic rename: along that update the
alias always resolves — to the old target before the rename and to the new
target afterwards — and the final state points at the new target.  The
single-file `rollback.py`, by contrast, unlinks and relinks (see the
counterexample), so the no-window guarantee holds only for the group
rollback path. -/
theorem c3_alias_atomicity_amended (fs : LinkFs) (tmp outLink target old : String)
    (htmp : tmp ≠ outLink) (hold : lookupLink fs outLink = some old) :
    (∀ st ∈ linkStates fs (atomic_update_symlink_ops tmp outLink target),
      lookupLink st outLink = some old ∨ lookupLink st outLink = some target) ∧
    lookupLink (applyLinkOps fs (atomic_update_symlink_ops tmp outLink target)) outLink =
      some target := by
  have hne : outLink ≠ tmp := fun he => htmp he.symm
  have hs1 : lookupLink (setLink fs tmp target) outLink = some old := by
    rw [lookupLink_setLink_other fs tmp target outLink hne]
    exact hold
  have hs2 : applyLinkOp (setLink fs tmp target) (LinkOp.rename tmp outLink) =
      setLink (removeLink (setLink fs tmp target) tmp) outLink target := by
    simp [applyLinkOp, lookupLink_setLink_self]
  have e1 : applyLinkOp fs (LinkOp.symlink target tmp) = setLink fs tmp target := rfl
  constructor
  · intro st hst
    simp only [atomic_update_symlink_ops, linkStates, List.mem_cons,
      List.mem_singleton, List.not_mem_nil, or_false] at hst
    rcases hst with h1 | h2 | h3
    · rw [h1]
      exact Or.inl hold
    · rw [h2, e1]
      exact Or.inl hs1
    · rw [h3, e1, hs2]
      exact Or.inr (lookupLink_setLink_self _ _ _)
  · simp only [atomic_update_symlink_ops, applyLinkOps, List.foldl]
    rw [e1, hs2]
    exact lookupLink_setLink_self _ _ _

/-- C3 (witness): the amended alias-atomicity statement at a concrete
state. -/
theorem c3_alias_atomicity_amended_witness :
    ((".tmp_link_x" : String) ≠ "latest") ∧
    lookupLink (applyLinkOps [("latest", "epoch_0003")]
      (atomic_update_symlink_ops ".tmp_link_x" "latest" "epoch_0004")) "latest" =
      some "epoch_0004" :=
  ⟨by decide, (c3_alias_atomicity_amended [("latest", "epoch_0003")] ".tmp_link_x"
    "latest" "epoch_0004" "epoch_0003" (by decide) (by decide)).2⟩

/-! ### Rollback selection (claim C2) -/

/-- One parsed row of the group scan CSV as `pick_latest_ok` reads it. -/
structure ScanRowCsv where
  group_ok : Nat
  epoch : Int
  dir : String
deriving DecidableEq

/-- The loop body of `pick_latest_ok`: keep the row when it is valid and
strictly newer than the best so far. -/
def pickStep (best : Int × Option String) (row : ScanRowCsv) : Int × Option String :=
  if row.group_ok = 1 ∧ best.1 < row.epoch then (row.epoch, some row.dir) else best

/-- `pick_latest_ok`: scan all rows starting from `best_epoch = -1`,
`best_dir = None`. -/
def pick_latest_ok (rows : List ScanRowCsv) : Option String :=
  (rows.foldl pickStep (-1, none)).2

/-- `group_rollback.main`: exit with an error when no row is valid,
otherwise atomically repoint the alias at the chosen directory.  The
`SystemExit` is raised before any filesystem operation. -/
def group_rollback_main (fs : LinkFs) (rows : List ScanRowCsv) (outLink tmp : String) :
    Except String LinkFs :=
  match pick_latest_ok rows with
  | none => .error "no group_ok=1 rows found"
  | some d => .ok (applyLinkOps fs (atomic_update_symlink_ops tmp outLink d))

/-- One parsed row of the single-file scan CSV as `rollback.main` reads it. -/
structure CkptRowCsv where
  epoch : Int
  corrupted : Nat
  file : String
deriving DecidableEq

/-- The filter of `rollback.main`: non-corrupted, nonnegative epoch,
nonempty file name. -/
def rollback_ok_rows (rows : List CkptRowCsv) : List CkptRowCsv :=
  rows.filter (fun r => r.corrupted == 0 && decide (0 ≤ r.epoch) && r.file != "")

/-- The fold implementing Python `max(ok, key=epoch)` (first maximum kept). -/
def bestStep (best : Option CkptRowCsv) (r : CkptRowCsv) : Option CkptRowCsv :=
  match best with
  | none => some r
  | some b => if b.epoch < r.epoch then some r else some b

def pick_best_ckpt (rows : List CkptRowCsv) : Option CkptRowCsv :=
  (rollback_ok_rows rows).foldl bestStep none

/-- `rollback.main`: `SystemExit` when no non-corrupted checkpoint exists. -/
def rollback_main (rows : List CkptRowCsv) : Except String CkptRowCsv :=
  match pick_best_ckpt rows with
  | none => .error "No non-corrupted checkpoints found"
  | some b => .ok b

/-- Characterization of the `pick_latest_ok` fold: either no processed row
beats the accumulator, which is returned unchanged, or some valid row with
the maximal epoch is returned. -/
theorem pickStep_fold_char (rows : List ScanRowCsv) (be : Int) (bd : Option String) :
    (rows.foldl pickStep (be, bd) = (be, bd) ∧
      ∀ r ∈ rows, ¬(r.group_ok = 1 ∧ be < r.epoch)) ∨
    (∃ r, r ∈ rows ∧ r.group_ok = 1 ∧ be < r.epoch ∧
      rows.foldl pickStep (be, bd) = (r.epoch, some r.dir) ∧
      ∀ r' ∈ rows, r'.group_ok = 1 → r'.epoch ≤ r.epoch) := by
  induction rows generalizing be bd with
  | nil => exact Or.inl ⟨rfl, by simp⟩
  | cons r rows ih =>
    by_cases hc : r.group_ok = 1 ∧ be < r.epoch
    · have hstep : pickStep (be, bd) r = (r.epoch, some r.dir) := by
        simp [pickStep, hc]
      rcases ih r.epoch (some r.dir) with ⟨heq, hnone⟩ | ⟨r2, hmem, hok2, hgt2, heq2, hmax2⟩
      · refine Or.inr ⟨r, List.mem_cons_self r rows, hc.1, hc.2, ?_, ?_⟩
        · simp only [List.foldl_cons, hstep]
          exact heq
        · intro r' hr' hok'
          rcases List.mem_cons.mp hr' with h | h
          · subst h
            exact le_refl _
          · have := hnone r' h
            omega
      · refine Or.inr ⟨r2, List.mem_cons_of_mem r hmem, hok2, by omega, ?_, ?_⟩
        · simp only [List.foldl_cons, hstep]
          exact heq2
        · intro r' hr' hok'
          rcases List.mem_cons.mp hr' with h | h
          · subst h
            omega
          · exact hmax2 r' h hok'
    · have hstep : pickStep (be, bd) r = (be, bd) := by
        simp [pickStep, hc]
      rcases ih be bd with ⟨heq, hnone⟩ | ⟨r2, hmem, hok2, hgt2, heq2, hmax2⟩
      · refine Or.inl ⟨?_, ?_⟩
        · simp only [List.foldl_cons, hstep]
          exact heq
        · intro r' hr'
          rcases List.mem_cons.mp hr' with h | h
          · subst h
            exact hc
          · exact hnone r' h
      · refine Or.inr ⟨r2, List.mem_cons_of_mem r hmem, hok2, hgt2, ?_, ?_⟩
        · simp only [List.foldl_cons, hstep]
          exact heq2
        · intro r' hr' hok'
          rcases List.mem_cons.mp hr' with h | h
          · subst h
            omega
          · exact hmax2 r' h hok'

/-- Characterization of the `max(ok, key=epoch)` fold. -/
theorem bestStep_fold_char (rows : List CkptRowCsv) (acc : Option CkptRowCsv) :
    (rows.foldl bestStep acc = acc ∧ rows = []) ∨
    (∃ b, rows.foldl bestStep acc = some b ∧
      (acc = some b ∨ b ∈ rows) ∧
      (∀ r ∈ rows, r.epoch ≤ b.epoch) ∧
      (∀ a, acc = some a → a.epoch ≤ b.epoch)) := by
  induction rows generalizing acc with
  | nil => exact Or.inl ⟨rfl, rfl⟩
  | cons r rows ih =>
    refine Or.inr ?_
    rcases ih (bestStep acc r) with ⟨heq, hnil⟩ | ⟨b, heq, hsrc, hmax, hacc⟩
    · subst hnil
      cases acc with
      | none =>
        exact ⟨r, heq, Or.inr (List.mem_cons_self r []), by simp, by simp⟩
      | some a =>
        by_cases hlt : a.epoch < r.epoch
        · refine ⟨r, by simp [bestStep, hlt], Or.inr (List.mem_cons_self r []),
            by simp, ?_⟩
          intro a' ha'
          cases ha'
          omega
        · refine ⟨a, by simp [bestStep, hlt], Or.inl rfl, ?_, ?_⟩
          · intro r' hr'
            rcases List.mem_cons.mp hr' with h | h
            · subst h
              omega
            · cases h
          · intro a' ha'
            cases ha'
            exact le_refl _
    · refine ⟨b, heq, ?_, ?_, ?_⟩
      · rcases hsrc with h | h
        · cases acc with
          | none =>
            simp only [bestStep] at h
            cases h
            exact Or.inr (List.mem_cons_self r rows)
          | some a =>
            simp only [bestStep] at h
            by_cases hlt : a.epoch < r.epoch
            · rw [if_pos hlt] at h
              cases h
              exact Or.inr (List.mem_cons_self r rows)
            · rw [if_neg hlt] at h
              exact Or.inl h
        · exact Or.inr (List.mem_cons_of_mem r h)
      · intro r' hr'
        rcases List.mem_cons.mp hr' with h | h
        · subst h
          cases acc with
          | none => exact hacc r' rfl
          | some a =>
            by_cases hlt : a.epoch < r'.epoch
            · exact hacc r' (by simp [bestStep, hlt])
            · have ha := hacc a (by simp [bestStep, hlt])
              omega
        · exact hmax r' h
      · intro a ha
        subst ha
        by_cases hlt : a.epoch < r.epoch
        · have hr := hacc r (by simp [bestStep, hlt])
          omega
        · exact hacc a (by simp [bestStep, hlt])

/-- The spec's worked example: verdicts `{1:false, 2:true, 3:false,
4:true, 5:false}` as scan rows. -/
def c2ExampleRows : List ScanRowCsv :=
  [⟨0, 1, "epoch_0001"⟩, ⟨1, 2, "epoch_0002"⟩, ⟨0, 3, "epoch_0003"⟩,
   ⟨1, 4, "epoch_0004"⟩, ⟨0, 5, "epoch_0005"⟩]

/-- C2.  Rollback selection: whenever `pick_latest_ok` returns a directory
it is the directory of a valid row of maximal epoch among the valid rows;
when some valid row (with a scan-produced, nonnegative epoch) exists it
never returns nothing; on the spec's example verdicts it selects epoch 4;
when no row is valid, `group_rollback.main` fails loudly with an error
before touching the filesystem.  The single-file `rollback.main` behaves
the same way: its pick is a non-corrupted row of maximal epoch among the
eligible rows, and with no non-corrupted row it exits with an error. -/
theorem c2_rollback_selection :
    (∀ (rows : List ScanRowCsv) (d : String), pick_latest_ok rows = some d →
      ∃ r, r ∈ rows ∧ r.dir = d ∧ r.group_ok = 1 ∧
        ∀ r' ∈ rows, r'.group_ok = 1 → r'.epoch ≤ r.epoch) ∧
    (∀ rows : List ScanRowCsv, (∃ r ∈ rows, r.group_ok = 1 ∧ 0 ≤ r.epoch) →
      pick_latest_ok rows ≠ none) ∧
    pick_latest_ok c2ExampleRows = some "epoch_0004" ∧
    (∀ (fs : LinkFs) (rows : List ScanRowCsv) (outLink tmp : String),
      pick_latest_ok rows = none →
      group_rollback_main fs rows outLink tmp = .error "no group_ok=1 rows found") ∧
    (∀ (rows : List CkptRowCsv) (b : CkptRowCsv), pick_best_ckpt rows = some b →
      b ∈ rows ∧ b.corrupted = 0 ∧ 0 ≤ b.epoch ∧ b.file ≠ "" ∧
        ∀ r' ∈ rows, r'.corrupted = 0 → 0 ≤ r'.epoch → r'.file ≠ "" →
          r'.epoch ≤ b.epoch) ∧
    (∀ rows : List CkptRowCsv, (∀ r ∈ rows, r.corrupted ≠ 0) →
      rollback_main rows = .error "No non-corrupted checkpoints found") := by
  have hmemf : ∀ (rows : List CkptRowCsv) (r : CkptRowCsv),
      r ∈ rollback_ok_rows rows ↔
        r ∈ rows ∧ (r.corrupted = 0 ∧ 0 ≤ r.epoch ∧ r.file ≠ "") := by
    intro rows r
    simp [rollback_ok_rows, List.mem_filter, and_assoc]
  refine ⟨?_, ?_, ?_, ?_, ?_, ?_⟩
  · intro rows d h
    rcases pickStep_fold_char rows (-1) none with ⟨heq, -⟩ | ⟨r, hmem, hok, -, heq, hmax⟩
    · rw [pick_latest_ok, heq] at h
      simp at h
    · rw [pick_latest_ok, heq] at h
      simp at h
      exact ⟨r, hmem, h, hok, hmax⟩
  · rintro rows ⟨r, hmem, hok, hpos⟩
    rcases pickStep_fold_char rows (-1) none with ⟨-, hnone⟩ | ⟨r2, -, -, -, heq, -⟩
    · exact absurd ⟨hok, by omega⟩ (hnone r hmem)
    · rw [pick_latest_ok, heq]
      simp
  · decide
  · intro fs rows outLink tmp h
    simp [group_rollback_main, h]
  · intro rows b h
    rcases bestStep_fold_char (rollback_ok_rows rows) none with ⟨heq, -⟩ |
      ⟨b2, heq, hsrc, hmax, -⟩
    · rw [pick_best_ckpt, heq] at h
      simp at h
    · rw [pick_best_ckpt, heq] at h
      cases h
      rcases hsrc with h | h
      · simp at h
      · have hb := (hmemf rows b).mp h
        refine ⟨hb.1, hb.2.1, hb.2.2.1, hb.2.2.2, ?_⟩
        intro r' hr' hc he hf
        exact hmax r' ((hmemf rows r').mpr ⟨hr', hc, he, hf⟩)
  · intro rows hall
    have hfil : rollback_ok_rows rows = [] := by
      rw [rollback_ok_rows, List.filter_eq_nil_iff]
      intro r hr
      have := hall r hr
      simp [this]
    simp [rollback_main, pick_best_ckpt, hfil, bestStep]

/-- C2 (witness): the selection property evaluated on the spec's example
verdicts, where epoch 4 is chosen. -/
theorem c2_rollback_selection_witness :
    ∃ r, r ∈ c2ExampleRows ∧ r.dir = "epoch_0004" ∧ r.group_ok = 1 ∧
      ∀ r' ∈ c2ExampleRows, r'.group_ok = 1 → r'.epoch ≤ r.epoch :=
  c2_rollback_selection.1 c2ExampleRows "epoch_0004" (by decide)

/-! ### JSON object model (sidecar metadata) -/

/-- JSON scalar values as the sidecars use them: numbers (hash values,
epochs, timestamps) and strings. -/
inductive JVal
  | jn (v : Nat)
  | js (v : String)
deriving DecidableEq

/-- A JSON object: an association list of keys to scalar values. -/
abbrev JObj := List (String × JVal)

def lookupJ (o : JObj) (k : String) : Option JVal :=
  match o.find? (fun e => e.1 == k) with
  | none => none
  | some e => some e.2

def encJVal : JVal → Bytes
  | .jn v => [0, v]
  | .js s => 1 :: encStr s

def decJVal (b : Bytes) : Option (JVal × Bytes) :=
  match b with
  | 0 :: v :: r => some (.jn v, r)
  | 1 :: r =>
    match decStr r with
    | none => none
    | some (s, r') => some (.js s, r')
  | _ => none

def encJEntry (e : String × JVal) : Bytes := encStr e.1 ++ encJVal e.2

def decJEntry (b : Bytes) : Option ((String × JVal) × Bytes) :=
  match decStr b with
  | none => none
  | some (k, r) =>
    match decJVal r with
    | none => none
    | some (v, r') => some ((k, v), r')

/-- Model of `json.dumps` for a sidecar object. -/
def encJObj (o : JObj) : Bytes := encListGen encJEntry o

/-- Model of `json.loads` for a sidecar object. -/
def decJObj : Bytes → Option JObj := parseWith (decListGen decJEntry)

theorem decJVal_enc (v : JVal) (t : Bytes) : decJVal (encJVal v ++ t) = some (v, t) := by
  cases v with
  | jn n => rfl
  | js s =>
    simp only [encJVal, decJVal, List.cons_append]
    rw [decStr_enc]

theorem decJEntry_enc (e : String × JVal) (t : Bytes) :
    decJEntry (encJEntry e ++ t) = some (e, t) := by
  simp only [encJEntry, decJEntry, List.append_assoc]
  rw [decStr_enc]
  simp [decJVal_enc]

theorem decJObj_enc (o : JObj) : decJObj (encJObj o) = some o := by
  have h := decListGen_enc encJEntry decJEntry decJEntry_enc o []
  rw [List.append_nil] at h
  simp [decJObj, encJObj, parseWith, h]

/-! ### Watch-and-restore guard
(`src/src/ckpt_integrity/guard/verify_and_watch.py`,
`src/src/ckpt_integrity/utils.py`) -/

def removeFile (fs : List (String × Bytes)) (name : String) : List (String × Bytes) :=
  fs.filter (fun f => f.1 != name)

def setFile (fs : List (String × Bytes)) (name : String) (data : Bytes) :
    List (String × Bytes) :=
  (name, data) :: removeFile fs name

/-- `os.path.splitext(p)[0]`: drop the last dot-separated extension. -/
def dropExt (p : String) : String :=
  match p.toList.reverse.dropWhile (fun c => c != '.') with
  | [] => p
  | _ :: rest => String.mk rest.reverse

/-- The sidecar path of `utils.read_meta`: `splitext(ckpt)[0] + ".meta.json"`. -/
def metaPathOf (p : String) : String := dropExt p ++ ".meta.json"

/-- `verify_once`: no sidecar means a `False` verdict; an unreadable
sidecar propagates (`read_meta` has no exception handler); otherwise the
file hash is compared against the sidecar's `sha256` field. -/
def verify_once (hash : Bytes → Nat) (fs : List (String × Bytes)) (path : String) :
    Except String Bool :=
  match lookupFile fs (metaPathOf path) with
  | none => .ok false
  | some mb =>
    match decJObj mb with
    | none => .error "JSONDecodeError"
    | some o =>
      match lookupFile fs path with
      | none => .error "FileNotFoundError"
      | some raw => .ok (lookupJ o "sha256" == some (JVal.jn (hash raw)))

/-- The `rollback` of `verify_and_watch`: `shutil.copy2(last_good, dst)` —
it overwrites the destination checkpoint file with the last-good bytes. -/
def vw_rollback (fs : List (String × Bytes)) (dst lastGood : String) :
    List (String × Bytes) × Bool :=
  match lookupFile fs lastGood with
  | none => (fs, false)
  | some b => (setFile fs dst b, true)

/-- One iteration of the watch loop for one path: verify, and on a failed
verdict restore the file from last-good.  (The events CSV lives outside
the checkpoint namespace and is not modelled.) -/
def watch_step (hash : Bytes → Nat) (fs : List (String × Bytes)) (path lastGood : String) :
    List (String × Bytes) × Except String Bool :=
  match verify_once hash fs path with
  | .error e => (fs, .error e)
  | .ok true => (fs, .ok true)
  | .ok false => ((vw_rollback fs path lastGood).1, .ok false)

theorem lookupFile_removeFile_other (fs : List (String × Bytes)) (n m : String)
    (h : m ≠ n) : lookupFile (removeFile fs n) m = lookupFile fs m := by
  induction fs with
  | nil => rfl
  | cons l fs ih =>
    by_cases hl : l.1 = n
    · have hrem : removeFile (l :: fs) n = removeFile fs n := by
        simp [removeFile, List.filter_cons, hl]
      have hlm : (l.1 == m) = false := by
        rw [hl]
        simp [beq_eq_false_iff_ne]
        exact fun he => h he.symm
      have hrhs : lookupFile (l :: fs) m = lookupFile fs m := by
        simp [lookupFile, List.find?_cons, hlm]
      rw [hrem, hrhs]
      exact ih
    · have hln : (l.1 != n) = true := by
        simp [bne_iff_ne]
        exact hl
      have hrem : removeFile (l :: fs) n = l :: removeFile fs n := by
        simp [removeFile, List.filter_cons, hln]
      rw [hrem]
      by_cases hm : l.1 = m
      · have hlm : (l.1 == m) = true := by simp [hm]
        simp [lookupFile, List.find?_cons, hlm]
      · have hlm : (l.1 == m) = false := by
          simp [beq_eq_false_iff_ne]
          exact hm
        simp only [lookupFile, List.find?_cons, hlm]
        exact ih

theorem lookupFile_setFile_other (fs : List (String × Bytes)) (n : String) (d : Bytes)
    (m : String) (h : m ≠ n) : lookupFile (setFile fs n d) m = lookupFile fs m := by
  have h2 : (((n, d) : String × Bytes).1 == m) = false := by
    simp [beq_eq_false_iff_ne]
    exact fun he => h he.symm
  simp only [setFile, lookupFile, List.find?_cons, h2]
  have h3 := lookupFile_removeFile_other fs n m h
  simpa [lookupFile] using h3

/-- C5 (counterexample).  The rollback step of `verify_and_watch` mutates a
checkpoint file: restoring from last-good overwrites the failing
checkpoint path itself, changing its bytes. -/
theorem c5_read_only_frame_counterexample :
    lookupFile (vw_rollback [("ckpt/model.pt", [9, 9]), ("ckpt/last-good.pt", [1])]
      "ckpt/model.pt" "ckpt/last-good.pt").1 "ckpt/model.pt" = some [1] ∧
    lookupFile [("ckpt/model.pt", [9, 9]), ("ckpt/last-good.pt", [1])] "ckpt/model.pt" =
      some [9, 9] ∧
    (vw_rollback [("ckpt/model.pt", [9, 9]), ("ckpt/last-good.pt", [1])]
      "ckpt/model.pt" "ckpt/last-good.pt").2 = true := by
  decide

/-- C5 (amended).  Frame of the guard and rollback steps: a watch
iteration for `path` changes no file other than `path` itself (verification
is read-only; only the restore-from-last-good write touches `path`); when
no last-good file exists nothing at all is written; the symlink-based
rollbacks touch only the alias (and its temporary name): both the
unlink-relink update of `rollback.py` and the rename update of
`group_rollback.py` leave every other link unchanged. -/
theorem c5_read_only_frame_amended (hash : Bytes → Nat) (fs : List (String × Bytes))
    (path lastGood p : String) (hp : p ≠ path) :
    lookupFile (watch_step hash fs path lastGood).1 p = lookupFile fs p ∧
    (lookupFile fs lastGood = none → (watch_step hash fs path lastGood).1 = fs) ∧
    (∀ (lfs : LinkFs) (outLink tmp target q : String), q ≠ outLink → q ≠ tmp →
      lookupLink (applyLinkOps lfs (atomic_update_symlink_ops tmp outLink target)) q =
        lookupLink lfs q) ∧
    (∀ (lfs : LinkFs) (outLink target q : String), q ≠ outLink →
      lookupLink (applyLinkOps lfs (rollback_link_ops lfs outLink target)) q =
        lookupLink lfs q) := by
  refine ⟨?_, ?_, ?_, ?_⟩
  · rw [watch_step]
    cases hv : verify_once hash fs path with
    | error e => rfl
    | ok b =>
      cases b with
      | true => rfl
      | false =>
        simp only [vw_rollback]
        cases hlg : lookupFile fs lastGood with
        | none => rfl
        | some bts => exact lookupFile_setFile_other fs path bts p hp
  · intro hlg
    rw [watch_step]
    cases hv : verify_once hash fs path with
    | error e => rfl
    | ok b =>
      cases b with
      | true => rfl
      | false => simp [vw_rollback, hlg]
  · intro lfs outLink tmp target q hq1 hq2
    simp only [applyLinkOps, atomic_update_symlink_ops, List.foldl]
    have e1 : applyLinkOp lfs (LinkOp.symlink target tmp) = setLink lfs tmp target := rfl
    rw [e1]
    have e2 : applyLinkOp (setLink lfs tmp target) (LinkOp.rename tmp outLink) =
        setLink (removeLink (setLink lfs tmp target) tmp) outLink target := by
      simp [applyLinkOp, lookupLink_setLink_self]
    rw [e2]
    rw [lookupLink_setLink_other _ _ _ _ hq1]
    rw [lookupLink_removeLink_other _ _ _ hq2]
    exact lookupLink_setLink_other _ _ _ _ hq2
  · intro lfs outLink target q hq
    rw [rollback_link_ops]
    cases hex : (lookupLink lfs outLink).isSome with
    | true =>
      simp only [if_pos rfl, applyLinkOps, List.foldl, List.singleton_append]
      have e1 : applyLinkOp lfs (LinkOp.unlink outLink) = removeLink lfs outLink := rfl
      rw [e1]
      have e2 : applyLinkOp (removeLink lfs outLink) (LinkOp.symlink target outLink) =
          setLink (removeLink lfs outLink) outLink target := rfl
      rw [e2]
      rw [lookupLink_setLink_other _ _ _ _ hq]
      exact lookupLink_removeLink_other _ _ _ hq
    | false =>
      simp only [hex, Bool.false_eq_true, if_false, List.nil_append, applyLinkOps,
        List.foldl]
      exact lookupLink_setLink_other _ _ _ _ hq

/-- C5 (witness): the amended frame statement at a concrete state. -/
theorem c5_read_only_frame_amended_witness :
    (("other.pt" : String) ≠ "model.pt") ∧
    lookupFile (watch_step hashModel [("model.pt", [3])] "model.pt" "last.pt").1
      "other.pt" = lookupFile [("model.pt", [3])] "other.pt" :=
  ⟨by decide, (c5_read_only_frame_amended hashModel [("model.pt", [3])] "model.pt"
    "last.pt" "other.pt" (by decide)).1⟩

/-! ### Payload arrays and the content digest
(`src/src/aiwork/ckpt_writer.py`, `src/src/aiwork/torch_ckpt_writer.py`) -/

/-- One array element, as the scanners classify it: a finite number, NaN,
or an infinity.  (The digest hashes raw bit patterns; NaN/Inf are ordinary
values to it.) -/
inductive Val
  | num (v : Int)
  | nan
  | inf
deriving DecidableEq

/-- An array: dtype tag, shape, and elements in contiguous row-major
order. -/
structure Arr where
  dtype : String
  shape : List Nat
  elems : List Val
deriving DecidableEq

/-- Raw bit pattern of one element (model of its eight bytes). -/
def encVal : Val → Bytes
  | .num v => [0, if v < 0 then 1 else 0, v.natAbs]
  | .nan => [1, 0, 0]
  | .inf => [2, 0, 0]

/-- `arr.tobytes(order="C")`: the concatenated element bit patterns. -/
def arrayBytes (a : Arr) : Bytes := (a.elems.map encVal).flatten

/-- `array_digest`: hash over dtype tag, canonically rendered shape, and
raw bytes. -/
def array_digest (hash : Bytes → Nat) (a : Arr) : Nat :=
  hash (encStr a.dtype ++ encListGen encNat a.shape ++ arrayBytes a)

def lookupArr (payload : List (String × Arr)) (k : String) : Option Arr :=
  match payload.find? (fun e => e.1 == k) with
  | none => none
  | some e => some e.2

/-- The accumulation loop of `content_digest`: for each key of `key_order`
in order, accumulate the key bytes and the per-array digest.  A key of
`key_order` missing from the payload raises `KeyError` (`payload[k]`);
payload keys outside `key_order` are never consulted. -/
def digestAcc (hash : Bytes → Nat) (payload : List (String × Arr)) :
    List String → Except String Bytes
  | [] => .ok []
  | k :: ks =>
    match lookupArr payload k with
    | none => .error ("KeyError: " ++ k)
    | some a =>
      match digestAcc hash payload ks with
      | .error e => .error e
      | .ok rest => .ok (encStr k ++ encNat (array_digest hash a) ++ rest)

/-- `content_digest(payload, key_order)`. -/
def content_digest (hash : Bytes → Nat) (payload : List (String × Arr))
    (keyOrder : List String) : Except String Nat :=
  match digestAcc hash payload keyOrder with
  | .error e => .error e
  | .ok acc => .ok (hash acc)

/-! ### Single-checkpoint writer epoch
(`ckpt_writer.main` and `torch_ckpt_writer.main`, one checkpointed epoch) -/

/-- On-disk state of one checkpoint slot: the sidecar and checkpoint files
and their atomic-write temporaries. -/
structure CkptFs where
  metaTmp : Option Bytes
  metaFile : Option Bytes
  ckptTmp : Option Bytes
  ckptFile : Option Bytes
deriving DecidableEq

def emptyCkptFs : CkptFs := ⟨none, none, none, none⟩

def fault_str : Fault → String
  | .noFault => "none"
  | .bitflip => "bitflip"
  | .truncate => "truncate"
  | .zerorange => "zerorange"

def write_mode_str : WriteMode → String
  | .atomic => "atomic"
  | .direct => "unsafe"

/-- The sidecar object the npz writer serializes (`meta` in
`ckpt_writer.main`): note that it has no file-hash field. -/
def npz_meta (epoch ts seed : Nat) (fault : Fault) (mode : WriteMode) (digest : Nat) :
    JObj :=
  [("epoch", .jn epoch), ("ts", .jn ts), ("seed", .jn seed),
   ("fault", .js (fault_str fault)), ("write_mode", .js (write_mode_str mode)),
   ("expected_digest", .jn digest), ("note", .js "ckpt-integrity-step2")]

/-- The sidecar object the torch writer serializes, with the pre-fault
file hash. -/
def torch_meta (epoch ts seed : Nat) (fault : Fault) (mode : WriteMode)
    (digest fileSha : Nat) : JObj :=
  [("epoch", .jn epoch), ("ts", .jn ts), ("seed", .jn seed),
   ("fault", .js (fault_str fault)), ("write_mode", .js (write_mode_str mode)),
   ("expected_digest", .jn digest), ("expected_file_sha256", .jn fileSha),
   ("note", .js "torch-ckpt")]

/-- Canonical container serialization of a payload (model of
`save_npz_bytes` / `torch.save` bytes). -/
def encArr (a : Arr) : Bytes :=
  encStr a.dtype ++ encListGen encNat a.shape ++ encListGen encVal a.elems

def encArrEntry (e : String × Arr) : Bytes := encStr e.1 ++ encArr e.2

def save_npz_bytes (payload : List (String × Arr)) : Bytes :=
  encListGen encArrEntry payload

/-- One checkpointed epoch of `ckpt_writer.main` (lines 162-200): digest
before serialization, fault injection after both hashes, sidecar written
first and atomically, checkpoint bytes second (atomic, or direct with a
half-write on the crash epoch).  The result is the sequence of on-disk
states at each visibility point; a digest failure aborts before any state
changes.  A simulated crash terminates after the last state. -/
def npz_writer_epoch (hash : Bytes → Nat) (fs0 : CkptFs)
    (payload : List (String × Arr)) (keyOrder : List String) (epoch ts seed : Nat)
    (fault : Fault) (s : List Nat) (mode : WriteMode) (crashHere : Bool) :
    Except String (List CkptFs) :=
  match content_digest hash payload keyOrder with
  | .error e => .error e
  | .ok d =>
    let raw0 := save_npz_bytes payload
    let raw := (inject_fault s fault raw0).1
    let metaB := encJObj (npz_meta epoch ts seed fault mode d)
    let s1 : CkptFs := { fs0 with metaTmp := some metaB }
    let s2 : CkptFs := { fs0 with metaTmp := none, metaFile := some metaB }
    match mode with
    | .atomic =>
      .ok [fs0, s1, s2, { s2 with ckptTmp := some raw },
        { s2 with ckptTmp := none, ckptFile := some raw }]
    | .direct =>
      let written := if crashHere then raw.take (raw.length / 2) else raw
      .ok [fs0, s1, s2, { s2 with ckptFile := some [] },
        { s2 with ckptFile := some written }]

/-- One checkpointed epoch of `torch_ckpt_writer.main` (lines 131-169):
identical protocol, with the pre-fault file hash also stored in the
sidecar. -/
def torch_writer_epoch (hash : Bytes → Nat) (fs0 : CkptFs)
    (payload : List (String × Arr)) (keyOrder : List String) (epoch ts seed : Nat)
    (fault : Fault) (s : List Nat) (mode : WriteMode) (crashHere : Bool) :
    Except String (List CkptFs) :=
  match content_digest hash payload keyOrder with
  | .error e => .error e
  | .ok d =>
    let raw0 := save_npz_bytes payload
    let fileSha := hash raw0
    let raw := (inject_fault s fault raw0).1
    let metaB := encJObj (torch_meta epoch ts seed fault mode d fileSha)
    let s1 : CkptFs := { fs0 with metaTmp := some metaB }
    let s2 : CkptFs := { fs0 with metaTmp := none, metaFile := some metaB }
    match mode with
    | .atomic =>
      .ok [fs0, s1, s2, { s2 with ckptTmp := some raw },
        { s2 with ckptTmp := none, ckptFile := some raw }]
    | .direct =>
      let written := if crashHere then raw.take (raw.length / 2) else raw
      .ok [fs0, s1, s2, { s2 with ckptFile := some [] },
        { s2 with ckptFile := some written }]

/-! ### Digest schema behaviour (claim C6) -/

theorem digestAcc_isOk_iff (hash : Bytes → Nat) (payload : List (String × Arr))
    (ks : List String) :
    (digestAcc hash payload ks).toOption.isSome = true ↔
      ∀ k ∈ ks, (lookupArr payload k).isSome = true := by
  induction ks with
  | nil => simp [digestAcc, Except.toOption]
  | cons k ks ih =>
    simp only [digestAcc]
    cases hl : lookupArr payload k with
    | none =>
      simp only [Except.toOption]
      constructor
      · intro h
        simp at h
      · intro h
        have hk := h k (List.mem_cons_self k ks)
        rw [hl] at hk
        simp at hk
    | some a =>
      cases hd : digestAcc hash payload ks with
      | error e =>
        have hl2 : (digestAcc hash payload ks).toOption.isSome = false := by
          simp [hd, Except.toOption]
        constructor
        · intro h
          simp [Except.toOption] at h
        · intro h
          exfalso
          have := (ih.mpr (fun k' hk' => h k' (List.mem_cons_of_mem k hk')))
          rw [hl2] at this
          cases this
      | ok b =>
        constructor
        · intro _ k' hk'
          rcases List.mem_cons.mp hk' with hke | hkm
          · subst hke
            simp [hl]
          · exact ih.mp (by simp [hd, Except.toOption]) k' hkm
        · intro _
          simp [Except.toOption]

theorem digestAcc_error_char (hash : Bytes → Nat) (payload : List (String × Arr))
    (ks : List String) (e : String) (h : digestAcc hash payload ks = .error e) :
    ∃ k, k ∈ ks ∧ lookupArr payload k = none ∧ e = "KeyError: " ++ k := by
  induction ks with
  | nil => simp [digestAcc] at h
  | cons k ks ih =>
    simp only [digestAcc] at h
    cases hl : lookupArr payload k with
    | none =>
      rw [hl] at h
      simp at h
      exact ⟨k, List.mem_cons_self k ks, hl, h.symm⟩
    | some a =>
      rw [hl] at h
      cases hd : digestAcc hash payload ks with
      | error e' =>
        rw [hd] at h
        simp at h
        obtain ⟨k', hk', hl', he'⟩ := ih (by rw [hd, h])
        exact ⟨k', List.mem_cons_of_mem k hk', hl', he'⟩
      | ok b =>
        rw [hd] at h
        simp at h

/-- C6 (counterexample).  An extra payload key absent from `key_order` does
not make the digest fail: the digest succeeds while the key sets differ. -/
theorem c6_schema_error_counterexample :
    (content_digest hashModel
      [("a", ⟨"float64", [1], [Val.num 3]⟩), ("b", ⟨"float64", [1], [Val.num 4]⟩)]
      ["a"]).toOption.isSome = true ∧
    lookupArr [("a", (⟨"float64", [1], [Val.num 3]⟩ : Arr)),
      ("b", ⟨"float64", [1], [Val.num 4]⟩)] "b" ≠ none ∧
    "b" ∉ (["a"] : List String) := by
  decide

/-- C6 (amended).  `content_digest(payload, key_order)` succeeds iff every
key of `key_order` is present in the payload — extra payload keys are
silently ignored, and a missing key raises a `KeyError` (not a dedicated
SchemaError) naming the first missing key; in the writer a digest failure
aborts the epoch before any bytes are persisted. -/
theorem c6_schema_error_amended (hash : Bytes → Nat) (payload : List (String × Arr))
    (keyOrder : List String) :
    ((content_digest hash payload keyOrder).toOption.isSome = true ↔
      ∀ k ∈ keyOrder, (lookupArr payload k).isSome = true) ∧
    (∀ e, content_digest hash payload keyOrder = .error e →
      ∃ k, k ∈ keyOrder ∧ lookupArr payload k = none ∧ e = "KeyError: " ++ k) ∧
    (∀ (fs0 : CkptFs) (epoch ts seed : Nat) (fault : Fault) (s : List Nat)
        (mode : WriteMode) (crash : Bool) (e : String),
      content_digest hash payload keyOrder = .error e →
      npz_writer_epoch hash fs0 payload keyOrder epoch ts seed fault s mode crash =
        .error e) := by
  refine ⟨?_, ?_, ?_⟩
  · rw [content_digest]
    cases hd : digestAcc hash payload keyOrder with
    | error e =>
      have h1 := digestAcc_isOk_iff hash payload keyOrder
      rw [hd] at h1
      simpa [Except.toOption] using h1
    | ok b =>
      have h1 := digestAcc_isOk_iff hash payload keyOrder
      rw [hd] at h1
      simpa [Except.toOption] using h1
  · intro e h
    rw [content_digest] at h
    cases hd : digestAcc hash payload keyOrder with
    | error e' =>
      rw [hd] at h
      simp at h
      subst h
      exact digestAcc_error_char hash payload keyOrder e' hd
    | ok b =>
      rw [hd] at h
      simp at h
  · intro fs0 epoch ts seed fault s mode crash e h
    rw [npz_writer_epoch, h]

/-- C6 (witness): the amended digest characterization evaluated at a
payload with one matching key. -/
theorem c6_schema_error_amended_witness :
    (content_digest hashModel [("a", ⟨"float64", [1], [Val.num 3]⟩)]
      ["a"]).toOption.isSome = true :=
  (c6_schema_error_amended hashModel [("a", ⟨"float64", [1], [Val.num 3]⟩)]
    ["a"]).1.mpr (by decide)

/-! ### Pre-fault hashing and sidecar-first writes (claims C9, C10) -/

/-- Read one field of the sidecar persisted at the final on-disk state of a
writer epoch (decode the sidecar bytes and look the key up). -/
def lastMetaField (r : Except String (List CkptFs)) (key : String) :
    Option (Option JVal) :=
  match r with
  | .error _ => none
  | .ok tr =>
    match tr.getLast? with
    | none => none
    | some st =>
      match st.metaFile with
      | none => none
      | some mb =>
        match decJObj mb with
        | none => none
        | some o => some (lookupJ o key)

set_option maxRecDepth 8000 in
/-- C9 (counterexample).  The npz writer's sidecar has no
`expected_file_sha256` field at all — the npz writer never computes a file
hash — while the torch writer's sidecar carries the hash of the clean
serialized bytes. -/
theorem c9_pre_fault_hashing_counterexample :
    lastMetaField (npz_writer_epoch hashModel emptyCkptFs
        [("W1", ⟨"float64", [1], [Val.num 3]⟩)] ["W1"] 3 0 0 Fault.noFault []
        WriteMode.atomic false) "expected_file_sha256" = some none ∧
    lastMetaField (torch_writer_epoch hashModel emptyCkptFs
        [("W1", ⟨"float64", [1], [Val.num 3]⟩)] ["W1"] 3 0 0 Fault.noFault []
        WriteMode.atomic false) "expected_file_sha256" =
      some (some (JVal.jn (hashModel
        (save_npz_bytes [("W1", ⟨"float64", [1], [Val.num 3]⟩)])))) := by
  decide

/-- C9 (amended).  Both single-checkpoint writers compute the expected
content digest from the payload, and the torch writer additionally the
expected file hash from the serialized container bytes, strictly before
the fault injector runs: for every fault mode and random stream the
persisted sidecar carries the digest of the clean payload — and, for the
torch writer, the hash of the clean serialized bytes.  The npz writer's
sidecar has no file-hash field (see the counterexample). -/
theorem c9_pre_fault_hashing_amended (hash : Bytes → Nat) (fs0 : CkptFs)
    (payload : List (String × Arr)) (keyOrder : List String) (epoch ts seed : Nat)
    (fault : Fault) (s : List Nat) (mode : WriteMode) (crash : Bool) (d : Nat)
    (hd : content_digest hash payload keyOrder = .ok d) :
    (∃ tr, torch_writer_epoch hash fs0 payload keyOrder epoch ts seed fault s mode
        crash = .ok tr ∧
      ∀ st ∈ tr.drop 2, st.metaFile = some (encJObj (torch_meta epoch ts seed fault
        mode d (hash (save_npz_bytes payload))))) ∧
    (∃ tr, npz_writer_epoch hash fs0 payload keyOrder epoch ts seed fault s mode
        crash = .ok tr ∧
      ∀ st ∈ tr.drop 2, st.metaFile =
        some (encJObj (npz_meta epoch ts seed fault mode d))) ∧
    lookupJ (torch_meta epoch ts seed fault mode d (hash (save_npz_bytes payload)))
      "expected_file_sha256" = some (.jn (hash (save_npz_bytes payload))) ∧
    lookupJ (torch_meta epoch ts seed fault mode d (hash (save_npz_bytes payload)))
      "expected_digest" = some (.jn d) ∧
    lookupJ (npz_meta epoch ts seed fault mode d) "expected_digest" = some (.jn d) ∧
    lookupJ (npz_meta epoch ts seed fault mode d) "expected_file_sha256" = none := by
  refine ⟨?_, ?_, rfl, rfl, rfl, rfl⟩
  · cases mode with
    | atomic =>
      simp only [torch_writer_epoch, hd]
      refine ⟨_, rfl, ?_⟩
      intro st hst
      simp only [List.drop, List.mem_cons, List.not_mem_nil, or_false] at hst
      rcases hst with h | h | h <;> subst h <;> rfl
    | direct =>
      simp only [torch_writer_epoch, hd]
      refine ⟨_, rfl, ?_⟩
      intro st hst
      simp only [List.drop, List.mem_cons, List.not_mem_nil, or_false] at hst
      rcases hst with h | h | h <;> subst h <;> rfl
  · cases mode with
    | atomic =>
      simp only [npz_writer_epoch, hd]
      refine ⟨_, rfl, ?_⟩
      intro st hst
      simp only [List.drop, List.mem_cons, List.not_mem_nil, or_false] at hst
      rcases hst with h | h | h <;> subst h <;> rfl
    | direct =>
      simp only [npz_writer_epoch, hd]
      refine ⟨_, rfl, ?_⟩
      intro st hst
      simp only [List.drop, List.mem_cons, List.not_mem_nil, or_false] at hst
      rcases hst with h | h | h <;> subst h <;> rfl

/-- C9 (witness): the amended pre-fault hashing statement under the
`truncate` fault at a one-key payload. -/
theorem c9_pre_fault_hashing_amended_witness :
    content_digest hashModel [("W1", ⟨"float64", [1], [Val.num 3]⟩)] ["W1"] =
      .ok ((content_digest hashModel [("W1", ⟨"float64", [1], [Val.num 3]⟩)]
        ["W1"]).toOption.getD 0) ∧
    lookupJ (npz_meta 3 0 0 Fault.truncate WriteMode.direct
        ((content_digest hashModel [("W1", ⟨"float64", [1], [Val.num 3]⟩)]
          ["W1"]).toOption.getD 0)) "expected_file_sha256" = none :=
  ⟨rfl,
   (c9_pre_fault_hashing_amended hashModel emptyCkptFs
     [("W1", ⟨"float64", [1], [Val.num 3]⟩)] ["W1"] 3 0 0 Fault.truncate []
     WriteMode.direct true _ rfl).2.2.2.2.2⟩

/-- C10.  In both single-checkpoint writers the sidecar is always written
first and always atomically, whatever the write mode, fault mode and crash
epoch: each epoch's five on-disk states are such that the first three leave
the checkpoint slot untouched (the sidecar write precedes any
checkpoint-byte write); the sidecar path only ever holds its old value or
the complete new sidecar (never partial content); and from the third state
on — in particular at the final state, where a simulated crash during or
after the checkpoint write terminates the process — the complete sidecar
with the expected digests for the epoch is on disk. -/
theorem c10_sidecar_first_atomic (hash : Bytes → Nat) (fs0 : CkptFs)
    (payload : List (String × Arr)) (keyOrder : List String) (epoch ts seed : Nat)
    (fault : Fault) (s : List Nat) (mode : WriteMode) (crash : Bool) (d : Nat)
    (hd : content_digest hash payload keyOrder = .ok d) :
    (∃ tr, npz_writer_epoch hash fs0 payload keyOrder epoch ts seed fault s mode
        crash = .ok tr ∧ tr.length = 5 ∧
      (∀ st ∈ tr.drop 2, st.metaFile =
        some (encJObj (npz_meta epoch ts seed fault mode d))) ∧
      (∀ st ∈ tr.take 3, st.ckptFile = fs0.ckptFile ∧ st.ckptTmp = fs0.ckptTmp) ∧
      (∀ st ∈ tr, st.metaFile = fs0.metaFile ∨ st.metaFile =
        some (encJObj (npz_meta epoch ts seed fault mode d)))) ∧
    (∃ tr, torch_writer_epoch hash fs0 payload keyOrder epoch ts seed fault s mode
        crash = .ok tr ∧ tr.length = 5 ∧
      (∀ st ∈ tr.drop 2, st.metaFile = some (encJObj (torch_meta epoch ts seed fault
        mode d (hash (save_npz_bytes payload))))) ∧
      (∀ st ∈ tr.take 3, st.ckptFile = fs0.ckptFile ∧ st.ckptTmp = fs0.ckptTmp) ∧
      (∀ st ∈ tr, st.metaFile = fs0.metaFile ∨ st.metaFile = some (encJObj
        (torch_meta epoch ts seed fault mode d (hash (save_npz_bytes payload)))))) := by
  constructor
  · cases mode with
    | atomic =>
      simp only [npz_writer_epoch, hd]
      refine ⟨_, rfl, rfl, ?_, ?_, ?_⟩
      · intro st hst
        simp only [List.drop, List.mem_cons, List.not_mem_nil, or_false] at hst
        rcases hst with h | h | h <;> subst h <;> rfl
      · intro st hst
        simp only [List.take, List.mem_cons, List.not_mem_nil, or_false] at hst
        rcases hst with h | h | h <;> subst h <;> exact ⟨rfl, rfl⟩
      · intro st hst
        simp only [List.mem_cons, List.not_mem_nil, or_false] at hst
        rcases hst with h | h | h | h | h <;> subst h
        · exact Or.inl rfl
        · exact Or.inl rfl
        · exact Or.inr rfl
        · exact Or.inr rfl
        · exact Or.inr rfl
    | direct =>
      simp only [npz_writer_epoch, hd]
      refine ⟨_, rfl, rfl, ?_, ?_, ?_⟩
      · intro st hst
        simp only [List.drop, List.mem_cons, List.not_mem_nil, or_false] at hst
        rcases hst with h | h | h <;> subst h <;> rfl
      · intro st hst
        simp only [List.take, List.mem_cons, List.not_mem_nil, or_false] at hst
        rcases hst with h | h | h <;> subst h <;> exact ⟨rfl, rfl⟩
      · intro st hst
        simp only [List.mem_cons, List.not_mem_nil, or_false] at hst
        rcases hst with h | h | h | h | h <;> subst h
        · exact Or.inl rfl
        · exact Or.inl rfl
        · exact Or.inr rfl
        · exact Or.inr rfl
        · exact Or.inr rfl
  · cases mode with
    | atomic =>
      simp only [torch_writer_epoch, hd]
      refine ⟨_, rfl, rfl, ?_, ?_, ?_⟩
      · intro st hst
        simp only [List.drop, List.mem_cons, List.not_mem_nil, or_false] at hst
        rcases hst with h | h | h <;> subst h <;> rfl
      · intro st hst
        simp only [List.take, List.mem_cons, List.not_mem_nil, or_false] at hst
        rcases hst with h | h | h <;> subst h <;> exact ⟨rfl, rfl⟩
      · intro st hst
        simp only [List.mem_cons, List.not_mem_nil, or_false] at hst
        rcases hst with h | h | h | h | h <;> subst h
        · exact Or.inl rfl
        · exact Or.inl rfl
        · exact Or.inr rfl
        · exact Or.inr rfl
        · exact Or.inr rfl
    | direct =>
      simp only [torch_writer_epoch, hd]
      refine ⟨_, rfl, rfl, ?_, ?_, ?_⟩
      · intro st hst
        simp only [List.drop, List.mem_cons, List.not_mem_nil, or_false] at hst
        rcases hst with h | h | h <;> subst h <;> rfl
      · intro st hst
        simp only [List.take, List.mem_cons, List.not_mem_nil, or_false] at hst
        rcases hst with h | h | h <;> subst h <;> exact ⟨rfl, rfl⟩
      · intro st hst
        simp only [List.mem_cons, List.not_mem_nil, or_false] at hst
        rcases hst with h | h | h | h | h <;> subst h
        · exact Or.inl rfl
        · exact Or.inl rfl
        · exact Or.inr rfl
        · exact Or.inr rfl
        · exact Or.inr rfl

/-- C10 (witness): the sidecar-first statement on a crash epoch in unsafe
mode at a one-key payload. -/
theorem c10_sidecar_first_atomic_witness :
    ∃ tr, npz_writer_epoch hashModel emptyCkptFs
        [("W1", ⟨"float64", [1], [Val.num 3]⟩)] ["W1"] 3 0 0 Fault.noFault []
        WriteMode.direct true = .ok tr ∧ tr.length = 5 ∧
      (∀ st ∈ tr.drop 2, st.metaFile = some (encJObj (npz_meta 3 0 0 Fault.noFault
        WriteMode.direct ((content_digest hashModel
          [("W1", ⟨"float64", [1], [Val.num 3]⟩)] ["W1"]).toOption.getD 0)))) ∧
      (∀ st ∈ tr.take 3, st.ckptFile = emptyCkptFs.ckptFile ∧
        st.ckptTmp = emptyCkptFs.ckptTmp) ∧
      (∀ st ∈ tr, st.metaFile = emptyCkptFs.metaFile ∨ st.metaFile =
        some (encJObj (npz_meta 3 0 0 Fault.noFault WriteMode.direct
          ((content_digest hashModel [("W1", ⟨"float64", [1], [Val.num 3]⟩)]
            ["W1"]).toOption.getD 0)))) :=
  (c10_sidecar_first_atomic hashModel emptyCkptFs
    [("W1", ⟨"float64", [1], [Val.num 3]⟩)] ["W1"] 3 0 0 Fault.noFault []
    WriteMode.direct true _ rfl).1

/-! ### Single-file integrity scanners (`src/src/guard/integrity_guard.py`,
`src/src/guard/integrity_guard_pt.py`; claim C8) -/

/-- Decoder counterpart of `encVal` (container parsing). -/
def decVal (b : Bytes) : Option (Val × Bytes) :=
  match b with
  | 0 :: sg :: v :: r => some (.num (if sg = 1 then -(v : Int) else (v : Int)), r)
  | 1 :: _ :: _ :: r => some (.nan, r)
  | 2 :: _ :: _ :: r => some (.inf, r)
  | _ => none

def decArr (b : Bytes) : Option (Arr × Bytes) :=
  match decStr b with
  | none => none
  | some (dt, r) =>
    match decListGen decNat r with
    | none => none
    | some (sh, r') =>
      match decListGen decVal r' with
      | none => none
      | some (es, r'') => some (⟨dt, sh, es⟩, r'')

def decArrEntry (b : Bytes) : Option ((String × Arr) × Bytes) :=
  match decStr b with
  | none => none
  | some (k, r) =>
    match decArr r with
    | none => none
    | some (a, r') => some ((k, a), r')

/-- Model of `np.load` / `torch.load` on raw container bytes. -/
def parse_npz : Bytes → Option (List (String × Arr)) :=
  parseWith (decListGen decArrEntry)

def countNan (arrays : List (String × Arr)) : Nat :=
  (arrays.map (fun e => e.2.elems.countP (fun v => v == Val.nan))).sum

def countInf (arrays : List (String × Arr)) : Nat :=
  (arrays.map (fun e => e.2.elems.countP (fun v => v == Val.inf))).sum

/-- The hard-coded `EXPECTED` schema of the npz guard. -/
def npzExpected : List (String × List Nat × String) :=
  [("W1", ([128, 128], "float64")), ("b1", ([128], "float64")),
   ("W2", ([128, 10], "float64")), ("b2", ([10], "float64"))]

def npzKeyOrder : List String := ["W1", "b1", "W2", "b2"]

def npz_schema_ok (arrays : List (String × Arr)) : Bool :=
  npzExpected.all (fun e =>
    match lookupArr arrays e.1 with
    | none => false
    | some a => a.shape == e.2.1 && a.dtype == e.2.2)

/-- Sidecar reading of the npz guard: absent sidecar, unparseable sidecar
(`meta_error` note) and absent/empty `expected_digest` all yield "no
expectation". -/
def sidecar_expected_digest (sidecar : Option Bytes) : Option Nat × List String :=
  match sidecar with
  | none => (none, [])
  | some sb =>
    match decJObj sb with
    | none => (none, ["meta_error:JSONDecodeError"])
    | some o =>
      match lookupJ o "expected_digest" with
      | some (.jn d) => (some d, [])
      | _ => (none, [])

/-- One CSV row of the npz guard. -/
structure NpzRow where
  load_ok : Bool
  nan_total : Nat
  inf_total : Nat
  shape_ok : Bool
  expected_digest_present : Bool
  digest_match : Bool
  corrupted : Bool
  note : List String
deriving DecidableEq

/-- Per-file body of `integrity_guard.scan_dir`.  The digest is recomputed
only when the container loaded and the sidecar declares an expectation; in
that case a key missing from the loaded arrays raises an uncaught
`KeyError` (modelled as the error case). -/
def scan_npz_file (hash : Bytes → Nat) (raw : Bytes) (sidecar : Option Bytes) :
    Except String NpzRow :=
  let ex := sidecar_expected_digest sidecar
  match parse_npz raw with
  | none =>
    .ok ⟨false, 0, 0, false, ex.1.isSome, false, true,
      ex.2 ++ ["load_error:Exception"]⟩
  | some arrays =>
    let nan := countNan arrays
    let inf := countInf arrays
    let sok := npz_schema_ok arrays
    let shapeNote := if sok then ([] : List String) else ["shape_mismatch"]
    match ex.1 with
    | none =>
      .ok ⟨true, nan, inf, sok, false, false,
        (decide (0 < nan) || decide (0 < inf) || !sok), ex.2 ++ shapeNote⟩
    | some d =>
      match content_digest hash arrays npzKeyOrder with
      | .error e => .error e
      | .ok dl =>
        .ok ⟨true, nan, inf, sok, true, dl == d,
          (decide (0 < nan) || decide (0 < inf) || !sok || !(dl == d)),
          ex.2 ++ shapeNote ++ (if dl == d then [] else ["digest_mismatch"])⟩

/-- The hard-coded `EXPECTED` shape table of the torch guard (shapes only,
no dtype check). -/
def ptExpected : List (String × List Nat) :=
  [("fc1.weight", [128, 128]), ("fc1.bias", [128]),
   ("fc2.weight", [10, 128]), ("fc2.bias", [10])]

def ptKeyOrder : List String :=
  ["fc1.weight", "fc1.bias", "fc2.weight", "fc2.bias"]

def pt_schema_ok (arrays : List (String × Arr)) : Bool :=
  ptExpected.all (fun e =>
    match lookupArr arrays e.1 with
    | none => false
    | some a => a.shape == e.2)

/-- Sidecar reading of the torch guard: both expectations from one parse. -/
def pt_sidecar_read (sidecar : Option Bytes) :
    (Option Nat × Option Nat) × List String :=
  match sidecar with
  | none => ((none, none), [])
  | some sb =>
    match decJObj sb with
    | none => ((none, none), ["meta_error:JSONDecodeError"])
    | some o =>
      ((match lookupJ o "expected_digest" with
        | some (.jn d) => some d
        | _ => none,
        match lookupJ o "expected_file_sha256" with
        | some (.jn f) => some f
        | _ => none), [])

/-- One CSV row of the torch guard. -/
structure PtRow where
  load_ok : Bool
  nan_total : Nat
  inf_total : Nat
  shape_ok : Bool
  expected_digest_present : Bool
  digest_match : Bool
  expected_file_sha_present : Bool
  file_sha_match : Bool
  corrupted : Bool
  note : List String
deriving DecidableEq

/-- Per-file body of `integrity_guard_pt.scan_dir`.  The digest check is
wrapped in a handler (`digest_error` note); the file-hash check runs even
when loading failed; each expectation contributes to `corrupted` only when
present. -/
def scan_pt_file (hash : Bytes → Nat) (raw : Bytes) (sidecar : Option Bytes) : PtRow :=
  let ex := pt_sidecar_read sidecar
  let fileSha := hash raw
  let fsm := match ex.1.2 with
    | none => false
    | some f => fileSha == f
  let fsNote := match ex.1.2 with
    | none => ([] : List String)
    | some f => if fileSha == f then [] else ["file_sha_mismatch"]
  match parse_npz raw with
  | none =>
    ⟨false, 0, 0, false, ex.1.1.isSome, false, ex.1.2.isSome, fsm, true,
      ex.2 ++ ["load_error:Exception"] ++ fsNote⟩
  | some arrays =>
    let nan := countNan arrays
    let inf := countInf arrays
    let sok := pt_schema_ok arrays
    let shapeNote := if sok then ([] : List String) else ["shape_mismatch"]
    let dmn : Bool × List String := match ex.1.1 with
      | none => (false, [])
      | some d =>
        match content_digest hash arrays ptKeyOrder with
        | .error _ => (false, ["digest_error:KeyError"])
        | .ok dl => if dl == d then (true, []) else (false, ["digest_mismatch"])
    ⟨true, nan, inf, sok, ex.1.1.isSome, dmn.1, ex.1.2.isSome, fsm,
      (decide (0 < nan) || decide (0 < inf) || !sok ||
        (ex.1.1.isSome && !dmn.1) || (ex.1.2.isSome && !fsm)),
      ex.2 ++ shapeNote ++ dmn.2 ++ fsNote⟩

/-- C8.  An unset expectation never contributes to the corrupted verdict:
when the sidecar declares no expected content digest (npz guard) — and,
for the torch guard, no expected file hash either — the scan cannot crash
on the digest path and `corrupted` is decided solely by load failure,
NaN count, Inf count and the schema check; the digest and file-hash
comparisons can flip `corrupted` only when their expectation is present. -/
theorem c8_unset_expectation (hash : Bytes → Nat) (raw : Bytes) (sidecar : Option Bytes)
    (h1 : (sidecar_expected_digest sidecar).1 = none)
    (h2 : (pt_sidecar_read sidecar).1.1 = none)
    (h3 : (pt_sidecar_read sidecar).1.2 = none) :
    (∃ row, scan_npz_file hash raw sidecar = .ok row ∧
      row.expected_digest_present = false ∧
      row.corrupted = (!row.load_ok || decide (0 < row.nan_total) ||
        decide (0 < row.inf_total) || !row.shape_ok)) ∧
    ((scan_pt_file hash raw sidecar).expected_digest_present = false ∧
     (scan_pt_file hash raw sidecar).expected_file_sha_present = false ∧
     (scan_pt_file hash raw sidecar).corrupted =
       (!(scan_pt_file hash raw sidecar).load_ok ||
        decide (0 < (scan_pt_file hash raw sidecar).nan_total) ||
        decide (0 < (scan_pt_file hash raw sidecar).inf_total) ||
        !(scan_pt_file hash raw sidecar).shape_ok)) := by
  constructor
  · rw [scan_npz_file]
    cases hp : parse_npz raw with
    | none =>
      refine ⟨_, rfl, ?_, ?_⟩ <;> simp [h1]
    | some arrays =>
      rw [h1]
      exact ⟨_, rfl, rfl, rfl⟩
  · rw [scan_pt_file, h2, h3]
    cases hp : parse_npz raw with
    | none => exact ⟨rfl, rfl, rfl⟩
    | some arrays =>
      refine ⟨rfl, rfl, ?_⟩
      simp

/-- C8 (witness): the unset-expectation statement for a file with no
sidecar at all. -/
theorem c8_unset_expectation_witness :
    ∃ row, scan_npz_file hashModel [7] none = .ok row ∧
      row.expected_digest_present = false ∧
      row.corrupted = (!row.load_ok || decide (0 < row.nan_total) ||
        decide (0 < row.inf_total) || !row.shape_ok) :=
  (c8_unset_expectation hashModel [7] none rfl rfl rfl).1

end Ckpt
